import Mathlib

set_option maxRecDepth 8000000
set_option maxHeartbeats 1000000

/-!
Verification of the offset index and seek engine of
`pymzml/file_classes/standardMzml.py` (class `StandardMzml`), over a shallow
embedding of the Python source.  Files are byte lists, file handles are
explicit positions, Python exceptions are an error type, and every loop of
the source that is not bounded by construction takes an explicit fuel
parameter (running out of fuel models non-termination of the source loop).

Python `re` searches are modelled by executable scanning functions that are
specialised to the concrete patterns of `pymzml/regex_patterns.py`; each
matcher documents the pattern it implements.  Text-mode reads are modelled
as byte reads (i.e. a byte-transparent encoding such as latin-1, the one
used by the test-suite); `float` arithmetic of the source (`round`, the
`0.1` scale factors, `/`) is modelled by exact rational arithmetic on `Int`.
-/

namespace PymzML

/-- A byte, as a natural number. -/
abbrev Byte := Nat

/-- A byte string. -/
abbrev ByteStr := List Byte

/-- A file is its byte content. -/
abbrev File := List Byte

/-- Bytes of a Lean string literal (all file content used here is ASCII). -/
def strBytes (s : String) : ByteStr := s.toList.map Char.toNat

/-- `seeker.read(n)` at position `pos`: the next `n` bytes (fewer at EOF). -/
def fileRead (f : File) (pos n : Nat) : ByteStr := (f.drop pos).take n

/-- Python exceptions raised by the modelled code paths.  `outOfRange` is the
`Exception("Spectrum ID should be between …")` of `_binary_search`, which the
specification calls `OutOfRange`.  `fuelExhausted` models a source loop that
does not terminate. -/
inductive PyErr where
  | outOfRange
  | valueErr
  | indexErr
  | zeroDivErr
  | typeErr
  | keyErr
  | attrErr
  | stopIter
  | notFound
  | osErr
  | fuelExhausted
  deriving DecidableEq, Repr

/-- Python `io.BufferedReader.read(n)` at position `pos`: a non-negative
`n` reads `n` bytes (fewer at EOF), `n = -1` reads to EOF, and any other
negative size raises `ValueError` ("read length must be non-negative or
-1"). -/
def fileReadInt (f : File) (pos : Nat) (n : Int) : Except PyErr ByteStr :=
  if 0 ≤ n then .ok (fileRead f pos n.toNat)
  else if n = -1 then .ok (f.drop pos)
  else .error .valueErr

/-- Leftmost position (from `i`) whose suffix satisfies `check`; models
`re.search` for the patterns below (each of which needs at least one byte). -/
def scanFirstP {α : Type} (check : ByteStr → Option α) : ByteStr → Nat → Option (Nat × α)
  | [], _ => none
  | b :: rest, i =>
    match check (b :: rest) with
    | some a => some (i, a)
    | none => scanFirstP check rest (i + 1)

/-- All positions (from `i`) where `pat` occurs, overlapping occurrences
included.  Used where the source searches for a fixed literal. -/
def scanPositions (pat : ByteStr) : ByteStr → Nat → List Nat
  | [], _ => []
  | b :: rest, i =>
    (if pat.isPrefixOf (b :: rest) then [i] else []) ++ scanPositions pat rest (i + 1)

/-- `re.finditer`: successive non-overlapping leftmost matches; `check`
returns the match payload and the match length.  The fuel is the length of
the scanned string at the call sites. -/
def scanAllF {α : Type} (check : ByteStr → Option (α × Nat)) :
    Nat → ByteStr → Nat → List (Nat × α)
  | 0, _, _ => []
  | _ + 1, [], _ => []
  | fuel + 1, b :: rest, i =>
    match check (b :: rest) with
    | some (a, len) =>
      (i, a) :: scanAllF check fuel (List.drop (len - 1) rest) (i + max len 1)
    | none => scanAllF check fuel rest (i + 1)

/-- `re.search` for a literal byte pattern: position of its first occurrence. -/
def findPat (pat : ByteStr) (s : ByteStr) : Option Nat :=
  (scanFirstP (fun t => if pat.isPrefixOf t then some () else none) s 0).map (·.1)

/-- ASCII decimal digit. -/
def isDigit (b : Byte) : Bool := 48 ≤ b && b ≤ 57

/-- The maximal digit suffix of `s`: the text matched by
`re.search(b"[0-9]*$", s).group()`. -/
def digitSuffix (s : ByteStr) : ByteStr := (s.reverse.takeWhile isDigit).reverse

/-- Numeric value of a digit string. -/
def digitsVal (s : ByteStr) : Nat := s.foldl (fun acc b => acc * 10 + (b - 48)) 0

/-- Python `int(b"…")` on a digit string: `ValueError` when empty. -/
def intOfDigits (s : ByteStr) : Except PyErr Int :=
  if s.isEmpty then .error .valueErr else .ok (digitsVal s)

/-- Python list indexing with negative wrap-around and `IndexError`. -/
def pyIdx {α : Type} (l : List α) (i : Int) : Except PyErr α :=
  let j : Int := if i < 0 then i + l.length else i
  if h : 0 ≤ j ∧ j.toNat < l.length then .ok (l.get ⟨j.toNat, h.2⟩)
  else .error .indexErr

end PymzML

namespace PymzML

/-! ## Pattern catalogue (`pymzml/regex_patterns.py`)

Each Python byte-regex is modelled by an executable matcher.  A matcher
`…Check` decides whether a match *starts* at the head of its argument and
returns the captured groups (searching is `scanFirstP`/`scanAllF` on top).
Greedy `[^>]*` followed by a group is realised, as in a backtracking engine,
by trying the candidate positions from the rightmost one; lazy `(.*?)` takes
the shortest value; `.` does not cross a newline, while the character
classes `[^>]`/`[^"]` do. -/

/-- `\s` of Python `re` on bytes. -/
def isSpace (b : Byte) : Bool := b = 32 || b = 9 || b = 10 || b = 13 || b = 11 || b = 12

/-- `SPECTRUM_OPEN_PATTERN_SIMPLE = rb"<spectrum "`. -/
def SPECTRUM_OPEN_PATTERN_SIMPLE : ByteStr := strBytes "<spectrum "

/-- `SPECTRUM_CLOSE_PATTERN = b"</spectrum>"`. -/
def SPECTRUM_CLOSE_PATTERN : ByteStr := strBytes "</spectrum>"

/-- `CHROMATOGRAM_CLOSE_PATTERN = b"</chromatogram>"`. -/
def CHROMATOGRAM_CLOSE_PATTERN : ByteStr := strBytes "</chromatogram>"

/-- The literal `id="`. -/
def idEqLit : ByteStr := strBytes "id=\""

/-- The literal `index="`. -/
def indexEqLit : ByteStr := strBytes "index=\""

/-- The literal `spectrum`. -/
def spectrumLit : ByteStr := strBytes "spectrum"

/-- The literal `chromatogram`. -/
def chromatogramLit : ByteStr := strBytes "chromatogram"

/-- Length of the leading run of `<` bytes (for `<*`). -/
def ltRun (t : ByteStr) : Nat := (t.takeWhile (· = 60)).length

/-- Length of the `[^>]*` stretch at the head of `t`. -/
def gtFreeLen (t : ByteStr) : Nat := (t.takeWhile (fun b => !(b = 62))).length

/-- Candidate positions for `[^>]*id="` inside `t`: occurrences of `id="`
no later than the first `>`. -/
def idCandidates (t : ByteStr) : List Nat :=
  (scanPositions idEqLit t 0).filter (fun q => q ≤ gtFreeLen t)

/-- `SPECTRUM_ID_PATTERN_SIMPLE = rb"<*spectrum[^>]*id=\"(?P<id>[^\"]+)\""`:
match at the head of `t`?  Returns the `id` group.  `[^"]+` needs at least
one byte and a closing quote. -/
def specIdCheck (t : ByteStr) : Option ByteStr :=
  let k := ltRun t
  let t1 := t.drop k
  if spectrumLit.isPrefixOf t1 then
    let t2 := t1.drop spectrumLit.length
    (idCandidates t2).reverse.findSome? fun q =>
      let rest := t2.drop (q + idEqLit.length)
      let v := rest.takeWhile (fun b => !(b = 34))
      if v.length = 0 then none
      else if v.length < rest.length then some v else none
  else none

/-- `re.search` of `SPECTRUM_ID_PATTERN_SIMPLE`: the captured `id` of the
leftmost match (`None` when there is no match). -/
def specIdSearch (s : ByteStr) : Option ByteStr :=
  (scanFirstP specIdCheck s 0).map (·.2)

/-- `INDEX_LIST_OFFSET_PATTERN =
b"<indexListOffset>(?P<indexListOffset>[0-9]*)</indexListOffset>"`; returns
the (possibly empty) digit group. -/
def indexListOffsetCheck (t : ByteStr) : Option ByteStr :=
  let openLit := strBytes "<indexListOffset>"
  if openLit.isPrefixOf t then
    let t1 := t.drop openLit.length
    let ds := t1.takeWhile isDigit
    if (strBytes "</indexListOffset>").isPrefixOf (t1.drop ds.length) then some ds
    else none
  else none

/-- The byte class `[nativeID|idRef]` of `CHROMATOGRAM_OFFSET_PATTERN`:
one character among those of the two words and the bar. -/
def ticClassChars : ByteStr := strBytes "nativeID|dRf"

/-- `CHROMATOGRAM_OFFSET_PATTERN =
b'(?P<WTF>[nativeID|idRef])="TIC">(?P<offset>[0-9]*)</offset'`; returns the
digit group `offset`. -/
def chromOffsetCheck (t : ByteStr) : Option ByteStr :=
  match t with
  | [] => none
  | b :: rest =>
    if ticClassChars.contains b && (strBytes "=\"TIC\">").isPrefixOf rest then
      let t1 := rest.drop (strBytes "=\"TIC\">").length
      let ds := t1.takeWhile isDigit
      if (strBytes "</offset").isPrefixOf (t1.drop ds.length) then some ds
      else none
    else none

/-- `SPECTRUM_INDEX_PATTERN =
b'(?P<type>(scan=|nativeID="))(?P<nativeID>[0-9]*)">"(?P<offset>[0-9]*)</offset>'`
(note the stray literal `"` after `">`); returns `(nativeID, offset)`. -/
def spectrumIndexCheck (t : ByteStr) : Option (ByteStr × ByteStr) :=
  let tail := fun (t1 : ByteStr) =>
    let ds := t1.takeWhile isDigit
    let t2 := t1.drop ds.length
    if (strBytes "\">\"").isPrefixOf t2 then
      let t3 := t2.drop 3
      let os := t3.takeWhile isDigit
      if (strBytes "</offset>").isPrefixOf (t3.drop os.length) then some (ds, os)
      else none
    else none
  if (strBytes "scan=").isPrefixOf t then tail (t.drop 5)
  else if (strBytes "nativeID=\"").isPrefixOf t then tail (t.drop 10)
  else none

/-- `SPECTRUM_INDEX_PATTERN_SCIEX =
b'(?P<type>(cycle=))(?P<nativeID>[0-9]*) experiment=[0-9]*">(?P<offset>[0-9]*)</offset>'`;
returns `(nativeID, offset)`. -/
def spectrumIndexSciexCheck (t : ByteStr) : Option (ByteStr × ByteStr) :=
  if (strBytes "cycle=").isPrefixOf t then
    let t1 := t.drop 6
    let ds := t1.takeWhile isDigit
    let t2 := t1.drop ds.length
    if (strBytes " experiment=").isPrefixOf t2 then
      let t3 := t2.drop 12
      let es := t3.takeWhile isDigit
      let t4 := t3.drop es.length
      if (strBytes "\">").isPrefixOf t4 then
        let t5 := t4.drop 2
        let os := t5.takeWhile isDigit
        if (strBytes "</offset>").isPrefixOf (t5.drop os.length) then some (ds, os)
        else none
      else none
    else none
  else none

/-- `SIM_INDEX_PATTERN_SCIEX =
b'(?P<type>(idRef=))"sample=[0-9]* period=[0-9]* cycle=(?P<nativeID>[0-9]*) experiment=[0-9]*">(?P<offset>[0-9]*)</offset>'`;
returns `(nativeID, offset)`. -/
def simIndexSciexCheck (t : ByteStr) : Option (ByteStr × ByteStr) :=
  if (strBytes "idRef=\"sample=").isPrefixOf t then
    let t1 := t.drop (strBytes "idRef=\"sample=").length
    let s1 := t1.takeWhile isDigit
    let t2 := t1.drop s1.length
    if (strBytes " period=").isPrefixOf t2 then
      let t3 := t2.drop 8
      let s2 := t3.takeWhile isDigit
      let t4 := t3.drop s2.length
      if (strBytes " cycle=").isPrefixOf t4 then
        let t5 := t4.drop 7
        let ds := t5.takeWhile isDigit
        let t6 := t5.drop ds.length
        if (strBytes " experiment=").isPrefixOf t6 then
          let t7 := t6.drop 12
          let es := t7.takeWhile isDigit
          let t8 := t7.drop es.length
          if (strBytes "\">").isPrefixOf t8 then
            let t9 := t8.drop 2
            let os := t9.takeWhile isDigit
            if (strBytes "</offset>").isPrefixOf (t9.drop os.length) then some (ds, os)
            else none
          else none
        else none
      else none
    else none
  else none

/-- `SPECTRUM_ID_PATTERN2 = re.compile(r"(scan|scanId)=(\d+)")`: match at the
head of `t`, returning group 2. -/
def scanInStringCheck (t : ByteStr) : Option ByteStr :=
  let tail := fun (t1 : ByteStr) =>
    let ds := t1.takeWhile isDigit
    if ds.length = 0 then none else some ds
  if (strBytes "scan=").isPrefixOf t then tail (t.drop 5)
  else if (strBytes "scanId=").isPrefixOf t then tail (t.drop 7)
  else none

end PymzML

namespace PymzML

/-- Stable insertion into a `le`-sorted list. -/
def insertSorted {α : Type} (le : α → α → Bool) (a : α) : List α → List α
  | [] => [a]
  | b :: l => if le a b then a :: b :: l else b :: insertSorted le a l

/-- Stable insertion sort; models Python `sorted` (which is stable) and
reduces structurally. -/
def insertionSort {α : Type} (le : α → α → Bool) : List α → List α
  | [] => []
  | a :: l => insertSorted le a (insertionSort le l)

/-- Length of the current line (up to and excluding the next newline) —
the span that `.`/`.*`/`.*?` may cover. -/
def lineLen (t : ByteStr) : Nat := (t.takeWhile (fun b => !(b = 10))).length

/-- Candidate positions of `(index|id)="` inside `t`, up to position `stop`
(the two literal alternatives cannot match at the same position). -/
def indexIdCandidates (t : ByteStr) (stop : Nat) : List Nat :=
  ((scanPositions indexEqLit t 0).filter (fun q => q ≤ stop)
    ++ (scanPositions idEqLit t 0).filter (fun q => q ≤ stop)) |> insertionSort (· ≤ ·)

/-- Lazy value `(.*?)"` starting at `t`: the bytes up to the first `"`,
failing when a newline intervenes or no closing quote exists. -/
def lazyQuotedVal (t : ByteStr) : Option (ByteStr × Nat) :=
  let v := t.takeWhile (fun b => !(b = 34))
  if v.length < t.length && !(v.contains 10) then some (v, v.length + 1)
  else none

/-- Whether the candidate at `q` is `id="` (else it is `index="`). -/
def candIsId (t : ByteStr) (q : Nat) : Bool := idEqLit.isPrefixOf (t.drop q)

/-- `SPECTRUM_OPEN_PATTERN =
b'<*spectrum[^>]*(index|id)="(.*?)".*(index|id)="(.*?)"'`: match at the head
of `t`.  Returns `(spec_info[b"id"], match_length)` where `spec_info` is the
dict the source builds from the four groups
(`dict(zip(groups[0::2], groups[1::2]))`), so the payload is `none` exactly
when neither group 1 nor group 3 is `id` (the lookup then raises `KeyError`).
The greedy `[^>]*` tries the rightmost first-group candidate first; the
greedy `.*` tries the rightmost second-group candidate within the line
first; one lazy value per candidate is considered (the shortest), which is
exact for tag shapes in which the quoted values contain no `"`. -/
def specOpenCheck (t : ByteStr) : Option (Option ByteStr × Nat) :=
  let k := ltRun t
  let t1 := t.drop k
  if spectrumLit.isPrefixOf t1 then
    let t2 := t1.drop spectrumLit.length
    let r := (indexIdCandidates t2 (gtFreeLen t2)).reverse.findSome? fun q =>
      let isId1 := candIsId t2 q
      let vstart := q + (if isId1 then idEqLit.length else indexEqLit.length)
      match lazyQuotedVal (t2.drop vstart) with
      | none => none
      | some (v1, l1) =>
        let afterV1 := vstart + l1
        let t3 := t2.drop afterV1
        let cands2 := indexIdCandidates t3 (lineLen t3)
        match cands2.reverse.findSome? (fun q2 =>
          let isId2 := candIsId t3 q2
          let vstart2 := q2 + (if isId2 then idEqLit.length else indexEqLit.length)
          if (t3.take q2).contains 10 then none
          else match lazyQuotedVal (t3.drop vstart2) with
          | none => none
          | some (v2, l2) => some (isId2, v2, vstart2 + l2)) with
        | none => none
        | some (isId2, v2, endInT3) =>
          let idVal := if isId2 then some v2 else if isId1 then some v1 else none
          some (idVal, k + spectrumLit.length + afterV1 + endInT3)
    r
  else none

/-- `re.search` of `SPECTRUM_OPEN_PATTERN`: leftmost match as
`(start, (spec_info[b"id"]?, match_length))`. -/
def specOpenSearch (s : ByteStr) : Option (Nat × Option ByteStr × Nat) :=
  (scanFirstP specOpenCheck s 0).map (fun p => (p.1, p.2.1, p.2.2))

/-- `re.finditer` of `SPECTRUM_OPEN_PATTERN`: list of
`(start, spec_info[b"id"]?)`. -/
def specOpenFindAll (s : ByteStr) : List (Nat × Option ByteStr) :=
  scanAllF (fun t => (specOpenCheck t).map (fun p => (p.1, p.2))) s.length s 0

/-- The full-scan indexer's
`chromexp = re.compile(b'<\s*chromatogram[^>]*id="([^"]*)"')` and
`specexp = re.compile(b'<\s*spectrum[^>]*id="([^"]*)"')`, with `name` the
element name: match at head of `t`, returning `(id group, match length)`.
`[^"]*` may be empty and may cross newlines; it needs a closing quote. -/
def tagOpenCheck (name : ByteStr) (t : ByteStr) : Option (ByteStr × Nat) :=
  match t with
  | [] => none
  | b :: rest =>
    if b = 60 then
      let ws := (rest.takeWhile isSpace).length
      let r2 := rest.drop ws
      if name.isPrefixOf r2 then
        let r3 := r2.drop name.length
        match (idCandidates r3).reverse.findSome? (fun q =>
          let after := r3.drop (q + idEqLit.length)
          let v := after.takeWhile (fun x => !(x = 34))
          if v.length < after.length then some (v, q + idEqLit.length + v.length + 1)
          else none) with
        | some (v, endInR3) => some (v, 1 + ws + name.length + endInR3)
        | none => none
      else none
    else none

/-- `chromcntexp = re.compile(b'<\s*chromatogramList\s*count="([^"]*)"')` and
`speccntexp = re.compile(b'<\s*spectrumList\s*count="([^"]*)"')`: match at
head of `t`, returning the count group. -/
def cntCheck (name : ByteStr) (t : ByteStr) : Option ByteStr :=
  match t with
  | [] => none
  | b :: rest =>
    if b = 60 then
      let ws := (rest.takeWhile isSpace).length
      let r2 := rest.drop ws
      if name.isPrefixOf r2 then
        let r3 := r2.drop name.length
        let ws2 := (r3.takeWhile isSpace).length
        let r4 := r3.drop ws2
        if (strBytes "count=\"").isPrefixOf r4 then
          let r5 := r4.drop 7
          let v := r5.takeWhile (fun x => !(x = 34))
          if v.length < r5.length then some v else none
        else none
      else none
    else none

/-- `CHROMO_OPEN_PATTERN = re.compile(b'<chromatogram\\s.*?id="(.*?)"')`:
match at head of `t`, returning the id group.  `.*?` is lazy and does not
cross a newline. -/
def chromoOpenCheck (t : ByteStr) : Option ByteStr :=
  if (strBytes "<chromatogram").isPrefixOf t then
    let t1 := t.drop (strBytes "<chromatogram").length
    match t1 with
    | [] => none
    | b :: rest =>
      if isSpace b then
        match (scanPositions idEqLit rest 0).filter (fun q => q ≤ lineLen rest) with
        | [] => none
        | q :: _ =>
          match lazyQuotedVal (rest.drop (q + idEqLit.length)) with
          | some (v, _) => some v
          | none => none
      else none
  else none

end PymzML

namespace PymzML

/-! ## Data model: offset dict, seek list, engine state -/

/-- A key of `self.offset_dict`: Python keys are ints or strings. -/
inductive OKey where
  | int (n : Int)
  | str (s : ByteStr)
  deriving DecidableEq, Repr

/-- A value of `self.offset_dict`.  The source stores `None` (the `TIC`
placeholder), bare ints (line 331), one-tuples `(start,)` and two-tuples
`(start, end)`. -/
inductive OVal where
  | none
  | bare (off : Int)
  | one (start : Int)
  | two (start stop : Int)
  deriving DecidableEq, Repr

/-- Python-dict update: overwrite in place, else append (insertion order). -/
def dictSet {κ ν : Type} [DecidableEq κ] (d : List (κ × ν)) (k : κ) (v : ν) :
    List (κ × ν) :=
  if d.any (fun p => p.1 = k) then d.map (fun p => if p.1 = k then (k, v) else p)
  else d ++ [(k, v)]

/-- Python-dict lookup. -/
def dictFind {κ ν : Type} [DecidableEq κ] (d : List (κ × ν)) (k : κ) : Option ν :=
  (d.find? (fun p => p.1 = k)).map (·.2)

/-- Python `k in d`. -/
def dictMem {κ ν : Type} [DecidableEq κ] (d : List (κ × ν)) (k : κ) : Bool :=
  d.any (fun p => p.1 = k)

/-- The offset dict. -/
abbrev ODict := List (OKey × OVal)

/-- The key `"TIC"`. -/
def ticKey : OKey := .str (strBytes "TIC")

/-- Mutable state of a `StandardMzml` object: `self.offset_dict` and
`self.seek_list` (a list of `(scan_id, byte_offset)` pairs). -/
structure MzState where
  offset_dict : ODict
  seek_list : List (Int × Int)
  deriving DecidableEq, Repr

/-- Python tuple comparison `(a, b) < (c, d)` on int pairs. -/
def tupLt (a b : Int × Int) : Bool := a.1 < b.1 || (a.1 = b.1 && a.2 < b.2)

/-- The loop of `bisect.bisect_left` (binary search for the insertion
point); fuel exceeds the iteration count, which is logarithmic. -/
def bisectLoop (l : List (Int × Int)) (x : Int × Int) : Nat → Nat → Nat → Nat
  | 0, lo, _ => lo
  | fuel + 1, lo, hi =>
    if lo < hi then
      let mid := (lo + hi) / 2
      if tupLt (l.getD mid (0, 0)) x then bisectLoop l x fuel (mid + 1) hi
      else bisectLoop l x fuel lo mid
    else lo

/-- `bisect.bisect_left(l, x)` for the seek list. -/
def bisect_left (l : List (Int × Int)) (x : Int × Int) : Nat :=
  bisectLoop l x (l.length + 1) 0 l.length

/-- `int(round(num / den))` of the source, on exact rationals:
round-half-to-even (Python 3 `round`).  Caller guards `den ≠ 0`. -/
def roundDiv (num den : Int) : Int :=
  if den < 0 then roundDivPos (-num) (-den) else roundDivPos num den
where
  /-- Round `num / den`, `den > 0`, half to even. -/
  roundDivPos (num den : Int) : Int :=
    let q := Int.fdiv num den
    let r := num - q * den
    if 2 * r < den then q
    else if den < 2 * r then q + 1
    else if q % 2 = 0 then q else q + 1

/-- `int(x)` for the (exactly represented) rational `num / den`: truncation
toward zero.  Caller guards `den ≠ 0`. -/
def truncDiv (num den : Int) : Int := Int.tdiv num den

end PymzML

namespace PymzML

/-! ## `_read_until_tag_end` (standardMzml.py lines 777-796) -/

/-- Loop of `_read_until_tag_end`: while `count < max_search_len` and the
last read byte is none of `>`, `<`, ` `, read one byte.  The initial
`curr_byte = ""` and an empty read at EOF both fail the comparisons, as in
the source; reading at EOF appends nothing and does not advance. -/
def readUntilTagEndGo (f : File) : Nat → Nat → ByteStr → ByteStr → ByteStr × Nat
  | 0, pos, s, _ => (s, pos)
  | fuel + 1, pos, s, curr =>
    if curr = [62] || curr = [60] || curr = [32] then (s, pos)
    else
      let b := fileRead f pos 1
      readUntilTagEndGo f fuel (pos + b.length) (s ++ b) b

/-- `_read_until_tag_end(seeker)` with the default `max_search_len = 12`
(the only value used): returns the string read and the new position. -/
def readUntilTagEnd (f : File) (pos : Nat) : ByteStr × Nat :=
  readUntilTagEndGo f 12 pos [] []

/-! ## `_read_to_spec_end` (lines 577-605) -/

/-- The `while end_found is False` loop of `_read_to_spec_end`: grow
`data_chunk`, extend past a split tag, and look for `</spectrum>` first,
then `</chromatogram>`; `end_pos = match.end()` is an offset into
`data_chunk`, i.e. relative to the entry position. -/
def readToSpecEndGo (f : File) (chunkSize : Nat) :
    Nat → Nat → ByteStr → Except PyErr Nat
  | 0, _, _ => .error .fuelExhausted
  | fuel + 1, pos, data =>
    let r := fileRead f pos chunkSize
    let pos1 := pos + r.length
    let te := readUntilTagEnd f pos1
    let data := data ++ r ++ te.1
    match findPat SPECTRUM_CLOSE_PATTERN data with
    | some i => .ok (i + SPECTRUM_CLOSE_PATTERN.length)
    | none =>
      match findPat CHROMATOGRAM_CLOSE_PATTERN data with
      | some i => .ok (i + CHROMATOGRAM_CLOSE_PATTERN.length)
      | none => readToSpecEndGo f chunkSize fuel te.2 data

/-- `_read_to_spec_end(seeker)` with the default `chunks_to_read = 8` (the
only value used), so `chunk_size = 512 * 8`: returns
`(start_pos, end_pos)`. -/
def readToSpecEnd (f : File) (pos : Nat) (fuel : Nat) : Except PyErr (Nat × Nat) :=
  let chunkSize := 512 * 8
  let data := fileRead f pos chunkSize
  (readToSpecEndGo f chunkSize fuel (pos + data.length) data).map (fun e => (pos, e))

/-! ## `_read_extremes` (lines 607-670)

The default configuration `index_regex = None` is modelled, so
`spectrum_id_pattern` is `SPECTRUM_ID_PATTERN_SIMPLE`. -/

/-- Head pass of `_read_extremes`: `for x in range(100)`, read the chunk at
`x * 128000`, grow the buffer, and stop at the first buffer with a
`<spectrum ` match; an id whose trailing digits are empty degrades to scan
`0` (`except ValueError`), while a missing id match raises
`AttributeError`. -/
def headPass (f : File) : Nat → Nat → ByteStr → Except PyErr (List (Int × Int))
  | 0, _, _ => .ok []
  | fuel + 1, x, buffer =>
    let pos := x * 128000
    let chunk := fileRead f pos 128000
    let buffer := buffer ++ chunk
    let tell := pos + chunk.length
    match findPat SPECTRUM_OPEN_PATTERN_SIMPLE buffer with
    | some mstart =>
      match specIdSearch buffer with
      | none => .error .attrErr
      | some idv =>
        let first_scan : Int :=
          match intOfDigits (digitSuffix idv) with
          | .ok v => v
          | .error _ => 0
        .ok [(first_scan, (tell : Int) - 128000 + mstart)]
    | none => headPass f fuel (x + 1) buffer

/-- Tail pass of `_read_extremes`: `for x in range(1, 100)`, seek
`-x * 128000` from EOF (an `OSError` breaks the loop), prepend the chunk to
the buffer, and stop at the first buffer containing `<spectrum ` matches,
taking the last match; the `int(...)` here is *not* guarded by
`try/except`. -/
def tailPass (f : File) : Nat → Nat → ByteStr → Except PyErr (List (Int × Int))
  | 0, _, _ => .ok []
  | fuel + 1, x, buffer =>
    if f.length < x * 128000 then .ok []
    else
      let pos := f.length - x * 128000
      let chunk := fileRead f pos 128000
      let buffer := chunk ++ buffer
      let tell := pos + chunk.length
      match scanPositions SPECTRUM_OPEN_PATTERN_SIMPLE buffer 0 with
      | [] => tailPass f fuel (x + 1) buffer
      | m :: ms =>
        let mlast := (m :: ms).getLastD 0
        match specIdSearch (buffer.drop mlast) with
        | none => .error .attrErr
        | some idv => do
          let last_scan ← intOfDigits (digitSuffix idv)
          .ok [(last_scan, (tell : Int) - 128000 + mlast)]

/-- `_read_extremes()`: head pass then tail pass; each contributes at most
one `(scan_id, offset)` entry, appended in that order. -/
def readExtremes (f : File) : Except PyErr (List (Int × Int)) := do
  let h ← headPass f 100 0 []
  let t ← tailPass f 99 1 []
  .ok (h ++ t)

/-! ## `_build_index` (lines 261-363) -/

/-- Python `for line in seeker`: split into lines, keeping the `\n`. -/
def splitLinesAux : ByteStr → ByteStr → List ByteStr
  | [], cur => if cur.isEmpty then [] else [cur]
  | b :: rest, cur =>
    if b = 10 then (cur ++ [10]) :: splitLinesAux rest []
    else splitLinesAux rest (cur ++ [b])

/-- Lines of `s`, terminators kept. -/
def splitLines (s : ByteStr) : List ByteStr := splitLinesAux s []

/-- State of the backward trailer scan: the `TIC` entry written into
`offset_dict`, the (unused) sanity set, and the `indexListOffset`.
`indexListOff` mirrors the Python local `index_list_offset`, read only when
`indexFound` (it is unbound otherwise). -/
structure TrailerSt where
  tic : OVal
  sanity : List Int
  indexFound : Bool
  indexListOff : Int
  deriving DecidableEq, Repr

/-- Set insertion for `sanity_check_set.add`. -/
def insertSet (v : Int) (l : List Int) : List Int :=
  if l.contains v then l else l ++ [v]

/-- Per-line body of the backward scan (lines 296-311): try
`CHROMATOGRAM_OFFSET_PATTERN`, `SPECTRUM_INDEX_PATTERN_SCIEX` (sanity set
only) and `INDEX_LIST_OFFSET_PATTERN`; each hit converts its digit group
with `int(...)`, which raises `ValueError` on an empty group. -/
def trailerLine (st : TrailerSt) (line : ByteStr) : Except PyErr TrailerSt := do
  let st ← match scanFirstP chromOffsetCheck line 0 with
    | some (_, ds) => do
      let v ← intOfDigits ds
      pure { st with tic := OVal.bare v }
    | none => pure st
  let st ← match scanFirstP spectrumIndexSciexCheck line 0 with
    | some (_, g) => do
      let v ← intOfDigits g.2
      pure { st with sanity := insertSet v st.sanity }
    | none => pure st
  match scanFirstP indexListOffsetCheck line 0 with
  | some (_, ds) => do
    let v ← intOfDigits ds
    pure { st with indexFound := true, indexListOff := v }
  | none => pure st

/-- The `for _ in range(1, 10)` backward walk (lines 286-314): at slab `k`
seek `-1024 * k` from the current end-of-file position (an `OSError`
breaks), line-iterate to EOF, and stop early once the index-list offset and
the `TIC` offset have both been seen.  The sanity set is reset per slab. -/
def trailerScanGo (f : File) : Nat → Nat → TrailerSt → Except PyErr TrailerSt
  | 0, _, st => .ok st
  | fuel + 1, k, st =>
    if f.length < 1024 * k then .ok st
    else do
      let st := { st with sanity := [] }
      let st ← (splitLines (f.drop (f.length - 1024 * k))).foldlM trailerLine st
      if st.indexFound && !(st.tic == OVal.none) then .ok st
      else trailerScanGo f fuel (k + 1) st

/-- The backward trailer scan of `_build_index`. -/
def trailerScan (f : File) : Except PyErr TrailerSt :=
  trailerScanGo f 9 1 ⟨OVal.none, [], false, 0⟩

/-- Per-line body of the index slurp (lines 322-355), in the default
configuration `index_regex = None`: `SPECTRUM_INDEX_PATTERN` (a match with
empty `nativeID` group counts as no match) stores a *bare* offset under an
int key; otherwise `SIM_INDEX_PATTERN_SCIEX` stores a one-tuple
`(offset,)`, keyed by the decoded `nativeID` string — `SPECTRUM_ID_PATTERN2`
cannot match a pure digit string, so the `except AttributeError` branch
keeps the string key. -/
def indexLine (d : ODict) (line : ByteStr) : Except PyErr ODict := do
  let mspec :=
    match scanFirstP spectrumIndexCheck line 0 with
    | some (_, g) => if g.1 = [] then none else some g
    | none => none
  let msim := scanFirstP simIndexSciexCheck line 0
  match mspec with
  | some g => do
    let off ← intOfDigits g.2
    let nv ← intOfDigits g.1
    pure (dictSet d (OKey.int nv) (OVal.bare off))
  | none =>
    match msim with
    | some (_, g) => do
      let off ← intOfDigits g.2
      let key :=
        match scanFirstP scanInStringCheck g.1 0 with
        | some (_, ds) => OKey.int (digitsVal ds)
        | none => OKey.str g.1
      pure (dictSet d key (OVal.one off))
    | none => pure d

/-- Lines 316-322: seek to `index_list_offset` and slurp all entries. -/
def readIndexLines (f : File) (iloff : Nat) (d : ODict) : Except PyErr ODict :=
  (splitLines (f.drop iloff)).foldlM indexLine d

/-- Accumulator of `get_data_indices` (lines 368-446). -/
structure ScratchSt where
  chrom : List (ByteStr × Nat)
  specs : List (ByteStr × Nat)
  chromcnt : Int
  speccnt : Int
  deriving DecidableEq, Repr

/-- Python `int(str)` on an arbitrary captured string. -/
def pyIntStr (s : ByteStr) : Except PyErr Int :=
  if !s.isEmpty && s.all isDigit then .ok (digitsVal s) else .error .valueErr

/-- The `while True` chunk loop of `get_data_indices`: read 8 KiB, prepend
the last 100 bytes of the previous (extended) chunk with the matching
offset correction, record every `<\s*chromatogram…id="…"` and
`<\s*spectrum…id="…"` opening at its absolute offset, and track the
declared counts.  The fuel is sized at the call site so that it cannot run
out before the `if not chunk: break`. -/
def scratchGo (f : File) : Nat → Nat → ByteStr → ScratchSt → Except PyErr ScratchSt
  | 0, _, _, _ => .error .fuelExhausted
  | fuel + 1, pos, prev, st =>
    let raw := fileRead f pos 8192
    if raw.isEmpty then .ok st
    else
      let lookback := prev.drop (prev.length - 100)
      let chunk := if prev.length > 0 then lookback ++ raw else raw
      let offset := if prev.length > 0 then pos - 100 else pos
      let chromMs := scanAllF (tagOpenCheck chromatogramLit) chunk.length chunk 0
      let specMs := scanAllF (tagOpenCheck spectrumLit) chunk.length chunk 0
      let st := { st with
        chrom := chromMs.foldl (fun d m => dictSet d m.2 (offset + m.1)) st.chrom,
        specs := specMs.foldl (fun d m => dictSet d m.2 (offset + m.1)) st.specs }
      do
        let st ← match scanFirstP (cntCheck chromatogramLit) chunk 0 with
          | some (_, v) => do
            let n ← pyIntStr v
            pure { st with chromcnt := n }
          | none => pure st
        let st ← match scanFirstP (cntCheck spectrumLit) chunk 0 with
          | some (_, v) => do
            let n ← pyIntStr v
            pure { st with speccnt := n }
          | none => pure st
        scratchGo f fuel (pos + raw.length) chunk st

/-- `_build_index_from_scratch(seeker)` (lines 365-463): scan, take the
union of chromatogram and spectrum positions (a count mismatch only prints
a warning — both branches emit the union), sort by offset, and update
`offset_dict` with `(offset,)` one-tuples under the decoded string ids. -/
def buildIndexFromScratch (f : File) (d : ODict) : Except PyErr ODict := do
  let st ← scratchGo f (f.length / 8192 + 2) 0 [] ⟨[], [], 0, 0⟩
  let positions := st.specs.foldl (fun acc p => dictSet acc p.1 p.2) st.chrom
  let item_list := insertionSort (fun a b => a.2 ≤ b.2) positions
  let tmp := item_list.foldl (fun acc p => dictSet acc (OKey.str p.1) (OVal.one p.2)) []
  .ok (tmp.foldl (fun acc p => dictSet acc p.1 p.2) d)

/-- `_build_index(from_scratch)` (lines 261-363): set the `TIC` placeholder
to `None`, run the backward trailer scan (which may overwrite it), then
either slurp the discovered index, rebuild from scratch, or print the
warning (`true` in the result records that the warning was printed). -/
def buildIndex (f : File) (d0 : ODict) (from_scratch : Bool) :
    Except PyErr (ODict × Bool) := do
  let d := dictSet d0 ticKey OVal.none
  let ts ← trailerScan f
  let d := dictSet d ticKey ts.tic
  if ts.indexFound then do
    let d ← readIndexLines f ts.indexListOff.toNat d
    .ok (d, false)
  else if from_scratch then do
    let d ← buildIndexFromScratch f d
    .ok (d, false)
  else
    .ok (d, true)

/-- The constructor (lines 44-62): `offset_dict = dict()`, then
`seek_list = _read_extremes()`, then `_build_index(from_scratch)`. -/
def standardMzmlInit (f : File) (from_scratch : Bool) : Except PyErr MzState := do
  let sl ← readExtremes f
  let db ← buildIndex f [] from_scratch
  .ok { offset_dict := db.1, seek_list := sl }

end PymzML

namespace PymzML

/-! ## The seek engine (`__getitem__` and the search strategies) -/

/-- Whether the fragment is a spectrum or a chromatogram. -/
inductive FragKind where
  | spectrum
  | chromatogram
  deriving DecidableEq, Repr

/-- The result handed to the external deserializer: the XML byte slice and
its kind (`spec.Spectrum` / `spec.Chromatogram` construction is out of
scope). -/
structure Fragment where
  kind : FragKind
  data : ByteStr
  deriving DecidableEq, Repr

/-- Python `sub in hay` on bytes. -/
def bytesContains (hay sub : ByteStr) : Bool :=
  sub.isEmpty || !(scanPositions sub hay 0).isEmpty

/-! ### `_search_linear` (lines 672-729) -/

/-- The `while spec_end is None` loop (lines 702-718): read on in chunks
until `</spectrum>` appears; returns `spec_end_offset`. -/
def searchLinearEndLoop (f : File) : Nat → Nat → Except PyErr Nat
  | 0, _ => .error .fuelExhausted
  | fuel + 1, pos =>
    let fp := pos
    let r := fileRead f pos 4096
    let te := readUntilTagEnd f (pos + r.length)
    let data := r ++ te.1
    match findPat SPECTRUM_CLOSE_PATTERN data with
    | some e => .ok (fp + e + SPECTRUM_CLOSE_PATTERN.length)
    | none => searchLinearEndLoop f fuel te.2

/-- The `while True` loop of `_search_linear`: chunked forward scan with
`SPECTRUM_OPEN_PATTERN`; when the close tag is found in the same chunk the
offset dict is *not* updated (it is updated inside the continuation loop and
at the final hit).  `chunk_size = 8` at every call site, so
`total_chunk_size = 8 * 512`. -/
def searchLinearGo (f : File) (index : Int) :
    Nat → Nat → ODict → (Except PyErr Fragment) × ODict
  | 0, _, d => (.error .fuelExhausted, d)
  | fuel + 1, pos, d =>
    let fp := pos
    let r := fileRead f pos 4096
    let te := readUntilTagEnd f (pos + r.length)
    let data := r ++ te.1
    match specOpenSearch data with
    | some (ms, idv?, _) =>
      let start_off := fp + ms
      match idv? with
      | none => (.error .keyErr, d)
      | some idv =>
        match intOfDigits (digitSuffix idv) with
        | .error e => (.error e, d)
        | .ok current =>
          let cont := fun (end_off : Nat) (d : ODict) =>
            if current = index then
              match fileReadInt f start_off ((end_off : Int) - start_off) with
              | .error e => ((.error e : Except PyErr Fragment), d)
              | .ok spec_string =>
                let d := dictSet d (OKey.int current) (OVal.two start_off end_off)
                ((.ok ⟨.spectrum, spec_string⟩ : Except PyErr Fragment), d)
            else searchLinearGo f index fuel end_off d
          match findPat SPECTRUM_CLOSE_PATTERN (data.drop ms) with
          | some e => cont (fp + (e + SPECTRUM_CLOSE_PATTERN.length) + ms) d
          | none =>
            match searchLinearEndLoop f fuel start_off with
            | .error e => (.error e, d)
            | .ok end_off =>
              cont end_off
                (dictSet d (OKey.int current) (OVal.two start_off end_off))
    | none => searchLinearGo f index fuel te.2 d

/-! ### `_search_string_identifier` (lines 731-775) -/

/-- Tail `"\sdefaultArrayLength="[0-9]+">` of the dynamically compiled
pattern, tested at a candidate end of the id group. -/
def dalCloserAt (t : ByteStr) : Bool :=
  match t with
  | 34 :: w :: t1 =>
    isSpace w && (strBytes "defaultArrayLength=\"").isPrefixOf t1 &&
      (let t2 := t1.drop (strBytes "defaultArrayLength=\"").length
       let ds := t2.takeWhile isDigit
       !ds.isEmpty && (strBytes "\">").isPrefixOf (t2.drop ds.length))
  | _ => false

/-- The dynamically compiled pattern of `_search_string_identifier`
(line 739): `<\s*spectrum[^>]*index="[0-9]+"\sid="(.*SUB.*)"\s
defaultArrayLength="[0-9]+">`, matched at the head of `t`; returns the id
group.  Greedy `[^>]*` and the greedy group are realised by trying the
rightmost candidates first; the group stays within its line and must
contain `sub`. -/
def searchStrTagCheck (sub : ByteStr) (t : ByteStr) : Option ByteStr :=
  match t with
  | [] => none
  | b :: rest =>
    if b = 60 then
      let ws := (rest.takeWhile isSpace).length
      let r2 := rest.drop ws
      if spectrumLit.isPrefixOf r2 then
        let r3 := r2.drop spectrumLit.length
        ((scanPositions indexEqLit r3 0).filter
            (fun q => q ≤ gtFreeLen r3)).reverse.findSome? fun q =>
          let t1 := r3.drop (q + indexEqLit.length)
          let ds := t1.takeWhile isDigit
          if ds.isEmpty then none
          else
            match t1.drop ds.length with
            | 34 :: w :: t3 =>
              if isSpace w && idEqLit.isPrefixOf t3 then
                let t4 := t3.drop idEqLit.length
                ((List.range (lineLen t4 + 1)).filter
                    (fun p => dalCloserAt (t4.drop p))).reverse.findSome? fun p =>
                  let grp := t4.take p
                  if bytesContains grp sub then some grp else none
              else none
            | _ => none
      else none
    else none

/-- The `while True` loop of `_search_string_identifier`: chunked forward
scan; a spectrum id containing the string, or a chromatogram id equal to
it, delimits a fragment via `_read_to_spec_end` and `seeker.read(end)`;
`raise Exception("cant find specified string")` at EOF. -/
def searchStringIdentifierGo (f : File) (sub : ByteStr) :
    Nat → Nat → Except PyErr Fragment
  | 0, _ => .error .fuelExhausted
  | fuel + 1, pos =>
    let fp := pos
    let r := fileRead f pos 4096
    let te := readUntilTagEnd f (pos + r.length)
    let data := r ++ te.1
    match scanFirstP (searchStrTagCheck sub) data 0 with
    | some (ms, grp) =>
      if bytesContains grp sub then
        match readToSpecEnd f (fp + ms) fuel with
        | .error e => .error e
        | .ok (start, endRel) => .ok ⟨.spectrum, fileRead f start endRel⟩
      else searchStringIdentifierGo f sub fuel te.2
    | none =>
      match scanFirstP chromoOpenCheck data 0 with
      | some (ms, grp) =>
        if grp = sub then
          match readToSpecEnd f (fp + ms) fuel with
          | .error e => .error e
          | .ok (start, endRel) => .ok ⟨.chromatogram, fileRead f start endRel⟩
        else searchStringIdentifierGo f sub fuel te.2
      | none =>
        if data.isEmpty then .error .notFound
        else searchStringIdentifierGo f sub fuel te.2

/-- `_search_string_identifier(search_string)`: scan from offset zero. -/
def searchStringIdentifier (f : File) (sub : ByteStr) (fuel : Nat) :
    Except PyErr Fragment :=
  searchStringIdentifierGo f sub fuel 0

end PymzML

namespace PymzML

/-! ### `_interpol_search` (lines 465-575) -/

/-- The `while current_index > target_index` backtracking loop
(lines 515-526): step `chunk_size` backwards (clamped at 0) and re-read the
current index; a chunk without a match leaves `current_index` unchanged.
State is `(current_index, current_position, seeker position, lower_bound)`. -/
def interpolBackLoop (f : File) (target : Int) :
    Nat → Int → Nat → Nat → Nat → Except PyErr (Int × Nat × Nat × Nat)
  | 0, _, _, _, _ => .error .fuelExhausted
  | fuel + 1, current, cp, pos, lower =>
    if target < current then
      let offIv : Int := (cp : Int) - 4096
      let pos1 : Nat := if 0 < offIv then offIv.toNat else 0
      let lower := cp
      let cp := pos1
      let data := fileRead f pos1 4096
      let pos2 := pos1 + data.length
      match specOpenSearch data with
      | some (_, idv?, _) =>
        match idv? with
        | none => .error .keyErr
        | some idv =>
          match intOfDigits (digitSuffix idv) with
          | .error e => .error e
          | .ok cur2 => interpolBackLoop f target fuel cur2 cp pos2 lower
      | none => interpolBackLoop f target fuel current cp pos2 lower
    else .ok (current, cp, pos, lower)

/-- The main `while spectrum_found is False` loop of `_interpol_search`.
State is `(seeker position, current_position, lower_bound, upper_bound,
used_indices, offset_dict)`; `jumper_scaling` is reset to `1` each
iteration (line 489) and kept in tenths.  The float products of the jump
(`current_position * scaling * jumper_scaling`, with
`scaling = target / current`) are modelled exactly as
`⌊·⌋₀-truncated rationals`; a current index of `0` raises
`ZeroDivisionError`, a negative seek target `OSError`.  On
`len(data) == 0` the source bisects over a *dict* (`sorted_int_keys`), so
the first probe `a[mid]` raises `KeyError` (index `mid` is not a key) or
`TypeError` (comparing a stored offset value with an int); on an empty dict
`sorted_keys[-2]` raises `IndexError` (the bare `except` retries the same
lookup). -/
def interpolGo (f : File) (target : Int) :
    Nat → Nat → Nat → Nat → Nat → List Int → ODict →
    (Except PyErr Fragment) × ODict
  | 0, _, _, _, _, _, d => (.error .fuelExhausted, d)
  | fuel + 1, pos, cp, lower, upper, used, d =>
    let jt : Int := 10
    let fp := pos
    let data := fileRead f pos 4096
    let pos := pos + data.length
    match specOpenSearch data with
    | some (ms, idv?, _) =>
      let spec_start_offset := fp + ms
      let pos := spec_start_offset
      match idv? with
      | none => (.error .keyErr, d)
      | some idv =>
        match intOfDigits (digitSuffix idv) with
        | .error e => (.error e, d)
        | .ok current =>
          let d := dictSet d (OKey.int current) (OVal.one spec_start_offset)
          let jt := if used.contains current then
              (if target < current then (9 : Int) else 11) else jt
          let used := insertSet current used
          let dist := current - target
          if dist < -1 && -100 < dist then
            searchLinearGo f target fuel pos d
          else if 0 < dist && dist < 100 then
            match interpolBackLoop f target fuel current cp pos lower with
            | .error e => (.error e, d)
            | .ok (_, cp2, _, _) => searchLinearGo f target fuel cp2 d
          else if current = target then
            match readToSpecEnd f spec_start_offset fuel with
            | .error e => (.error e, d)
            | .ok (start, endRel) =>
              let d := dictSet d (OKey.int current) (OVal.two start endRel)
              match fileReadInt f start ((endRel : Int) - start) with
              | .error e => (.error e, d)
              | .ok xml => (.ok ⟨.spectrum, xml⟩, d)
          else if target < current then
            if current = 0 then (.error .zeroDivErr, d)
            else
              let tv := truncDiv ((cp : Int) * target * jt) (current * 10)
              if tv < 0 then (.error .osErr, d)
              else interpolGo f target fuel tv.toNat tv.toNat lower cp used d
          else
            if current = 0 then (.error .zeroDivErr, d)
            else
              let tv := truncDiv ((cp : Int) * target * jt) (current * 10)
              if tv < 0 then (.error .osErr, d)
              else interpolGo f target fuel tv.toNat tv.toNat cp upper used d
    | none =>
      if data.isEmpty then
        let intKeys := d.filter (fun p => match p.1 with
          | OKey.int _ => true
          | _ => false)
        if intKeys.length = 0 then (.error .indexErr, d)
        else
          match dictFind intKeys (OKey.int ((intKeys.length / 2 : Nat) : Int)) with
          | none => (.error .keyErr, d)
          | some _ => (.error .typeErr, d)
      else interpolGo f target fuel pos cp lower upper used d

/-- `_interpol_search(target_index)` with the default `chunk_size = 8`
(so a 4096-byte chunk) and `fallback_cutoff = 100`: binary midpoint seed,
then the interpolation loop. -/
def interpolSearch (f : File) (st : MzState) (target : Int) (fuel : Nat) :
    (Except PyErr Fragment) × MzState :=
  let mid := f.length / 2
  let r := interpolGo f target fuel mid mid 0 f.length [] st.offset_dict
  (r.1, { st with offset_dict := r.2 })

end PymzML

namespace PymzML

/-! ### `_binary_search` (lines 127-259) -/

/-- Scale and jump history of the jump search; `scaleTenths` is
`offset_scale` in tenths (`10` = `1`, `1` = `0.1`). -/
structure JumpSt where
  scaleTenths : Int
  fwd : Int
  bwd : Int
  deriving DecidableEq, Repr

/-- Lines 199-203: read 100 consecutive 12 800-byte chunks starting at
`max(byte_offset + x * chunk_size, 1)` into one buffer. -/
def binChunkRead (f : File) : Nat → Nat → Int → ByteStr → ByteStr
  | 0, _, _, acc => acc
  | fuel + 1, x, off, acc =>
    let p := max (off + x * 12800) 1
    binChunkRead f fuel (x + 1) off (acc ++ fileRead f p.toNat 12800)

/-- The `for _match_number, match in enumerate(matches)` loop
(lines 205-238): adjust `offset_scale`/`jump_history`, skip already indexed
scans, insert new `(scan, byte_offset + match.start())` entries into the
seek list (at `bisect_left`) and the offset dict (as a one-tuple), and set
`break_outer` on the target.  Raises `KeyError` when a match has no `id`
group and `ValueError` on an id without trailing digits.  The result
payload is `(jump state, found_scan, break_outer)`. -/
def binMatchLoop (target : Int) (byteOff : Int) (dir : Bool) :
    List (Nat × Option ByteStr) → JumpSt → MzState → Bool →
    (Except PyErr (JumpSt × Bool × Bool)) × MzState
  | [], js, st, found => (.ok (js, found, false), st)
  | (ms, idv?) :: rest, js, st, found =>
    match idv? with
    | none => (.error .keyErr, st)
    | some idv =>
      match intOfDigits (digitSuffix idv) with
      | .error e => (.error e, st)
      | .ok scan =>
        let js :=
          if dir then
            (if target < scan then { js with scaleTenths := 1, fwd := 0 }
             else { js with scaleTenths := 10 })
          else
            (if scan < target then { js with scaleTenths := 1, bwd := 0 }
             else { js with scaleTenths := 10 })
        if dictMem st.offset_dict (OKey.int scan) then
          binMatchLoop target byteOff dir rest js st found
        else
          let newEntry : Int × Int := (scan, byteOff + ms)
          let newPos := bisect_left st.seek_list newEntry
          let st := { st with
            seek_list := st.seek_list.insertIdx newPos newEntry,
            offset_dict :=
              dictSet st.offset_dict (OKey.int scan) (OVal.one (byteOff + ms)) }
          if scan = target then (.ok (js, true, true), st)
          else binMatchLoop target byteOff dir rest js st true

/-- The `for jump in range(40)` loop (lines 146-246).  Each iteration:
`bisect_left` insertion point, the range check (the `OutOfRange` error of
the specification), neighbours `m1`/`p1` (Python negative indexing wraps),
the local bytes-per-scan estimate (`ZeroDivisionError` when the scans
coincide), the tentative jump with the `< 10` close-range snap, the chunk
read and the match loop.  The dead `if found_scan …` block after `break`
(lines 241-244) is unreachable and not modelled.  Mutations survive an
exception, so the state is returned alongside the result. -/
def binJumpLoop (f : File) (target : Int) :
    Nat → JumpSt → MzState → (Except PyErr Unit) × MzState
  | 0, _, st => (.ok (), st)
  | fuel + 1, js, st =>
    let insert_position := bisect_left st.seek_list (target, 0)
    match pyIdx st.seek_list 0 with
    | .error e => (.error e, st)
    | .ok first =>
      match pyIdx st.seek_list (-1) with
      | .error e => (.error e, st)
      | .ok lastE =>
        if target < first.1 || lastE.1 < target then (.error .outOfRange, st)
        else
          match pyIdx st.seek_list ((insert_position : Int) - 1) with
          | .error e => (.error e, st)
          | .ok element_before =>
            match pyIdx st.seek_list (insert_position : Int) with
            | .error e => (.error e, st)
            | .ok element_after =>
              let spec_offset_m1 := target - element_before.1
              let spec_offset_p1 := element_after.1 - target
              let byte_diff := element_after.2 - element_before.2
              let scan_diff := element_after.1 - element_before.1
              if scan_diff = 0 then (.error .zeroDivErr, st)
              else
                let avg := roundDiv byte_diff scan_diff
                let dirJsBo :=
                  if spec_offset_m1 < spec_offset_p1 then
                    let js := { js with bwd := 0, fwd := js.fwd + 1 }
                    let bo :=
                      if spec_offset_m1 < 10 then element_before.2
                      else truncDiv
                        (10 * element_before.2 +
                          js.fwd * (js.scaleTenths * avg * spec_offset_m1)) 10
                    (true, js, bo)
                  else
                    let js := { js with fwd := 0, bwd := js.bwd + 1 }
                    let bo := truncDiv
                      (10 * element_after.2 -
                        js.bwd * (js.scaleTenths * avg * spec_offset_p1)) 10
                    (false, js, bo)
                  let chunk := binChunkRead f 100 0 dirJsBo.2.2 []
                  let ms := specOpenFindAll chunk
                  match binMatchLoop target dirJsBo.2.2 dirJsBo.1 ms dirJsBo.2.1 st false with
                  | (.error e, st) => (.error e, st)
                  | (.ok (js, _found, break_outer), st) =>
                    if break_outer then (.ok (), st)
                    else if dictMem st.offset_dict (OKey.int target) then (.ok (), st)
                    else binJumpLoop f target fuel js st

/-- The extraction loop (lines 252-253): `while b"</spectrum>" not in data:
data += seeker.read(chunk_size)`, reading from `start[0]`. -/
def binExtractLoop (f : File) (startPos : Nat) : Nat → ByteStr → Except PyErr ByteStr
  | 0, _ => .error .fuelExhausted
  | fuel + 1, data =>
    match findPat SPECTRUM_CLOSE_PATTERN data with
    | some _ => .ok data
    | none =>
      let r := fileRead f (startPos + data.length) 12800
      binExtractLoop f startPos fuel (data ++ r)

/-- `_binary_search(target_index)`: the jump loop when the target is not yet
indexed, then fragment extraction — `end = data.find(b"</spectrum>")`,
re-read `end + len("</spectrum>")` bytes from `start[0]` and decode (the
decode and `spec.Spectrum(XML(…))` construction are modelled as the byte
fragment itself).  A missing entry after 40 jumps raises `KeyError`; a
stored `None` or bare int offset raises `TypeError` at `start[0]`; a
negative stored offset makes `seeker.seek` raise `OSError`. -/
def binarySearch (f : File) (st : MzState) (target : Int) (fuel : Nat) :
    (Except PyErr Fragment) × MzState :=
  let jumped :=
    if dictMem st.offset_dict (OKey.int target) then (.ok (), st)
    else binJumpLoop f target 40 ⟨10, 0, 0⟩ st
  match jumped with
  | (.error e, st) => (.error e, st)
  | (.ok _, st) =>
    match dictFind st.offset_dict (OKey.int target) with
    | none => (.error .keyErr, st)
    | some (OVal.none) => (.error .typeErr, st)
    | some (OVal.bare _) => (.error .typeErr, st)
    | some v =>
      let s : Int := match v with
        | OVal.one s => s
        | OVal.two s _ => s
        | _ => 0
      if s < 0 then (.error .osErr, st)
      else
        match binExtractLoop f s.toNat fuel [] with
        | .error e => (.error e, st)
        | .ok data =>
          match findPat SPECTRUM_CLOSE_PATTERN data with
          | none => (.error .fuelExhausted, st)
          | some e =>
            (.ok ⟨.spectrum,
              fileRead f s.toNat (e + SPECTRUM_CLOSE_PATTERN.length)⟩, st)

/-! ### `__getitem__` (lines 70-125) -/

/-- ASCII upper-casing, for `str(identifier).upper()`. -/
def upperByte (b : Byte) : Byte := if 97 ≤ b && b ≤ 122 then b - 32 else b

/-- `str(identifier).upper() == "TIC"`: only string identifiers qualify. -/
def isTicName (k : OKey) : Bool :=
  match k with
  | .str s => s.map upperByte == strBytes "TIC"
  | .int _ => false

/-- The `TIC` branch of `__getitem__` (lines 90-104): `iterparse` streams
the file and the loop stops at the first `chromatogram` end element with
`id == "TIC"`.  The XML event parser is an external collaborator; it is
modelled as the leftmost chromatogram open tag with id `TIC`, the element
fragment extending through the next `</chromatogram>`.  Exhausting the
stream raises `StopIteration`. -/
def ticStream (f : File) : Except PyErr Fragment :=
  match scanFirstP (fun t =>
      match tagOpenCheck chromatogramLit t with
      | some (v, _) => if v = strBytes "TIC" then some () else none
      | none => none) f 0 with
  | some (p, _) =>
    match findPat CHROMATOGRAM_CLOSE_PATTERN (f.drop p) with
    | some e =>
      .ok ⟨.chromatogram, fileRead f p (e + CHROMATOGRAM_CLOSE_PATTERN.length)⟩
    | none => .error .stopIter
  | none => .error .stopIter

/-- `__getitem__(identifier)`.  Dispatch: the `TIC` streaming parse; a
direct offset-dict hit (`start = self.offset_dict[identifier]`,
`seeker.seek(start[0])`, `_read_to_spec_end`, then a `read(end)` of the
text handler — `end` is used as a *length* here — classified by its leading
bytes, `None` when it starts with neither tag); a string miss delegates to
`_search_string_identifier`; any other miss to `_binary_search`.  The
result is the optional fragment and the state after the call. -/
def getItem (f : File) (st : MzState) (ident : OKey) (fuel : Nat) :
    (Except PyErr (Option Fragment)) × MzState :=
  if isTicName ident then
    match ticStream f with
    | .ok fr => (.ok (some fr), st)
    | .error e => (.error e, st)
  else
    match dictFind st.offset_dict ident with
    | some v =>
      match v with
      | OVal.one s | OVal.two s _ =>
        if s < 0 then (.error .osErr, st)
        else
          match readToSpecEnd f s.toNat fuel with
          | .error e => (.error e, st)
          | .ok (start, endRel) =>
            let data := fileRead f start endRel
            if (strBytes "<spectrum").isPrefixOf data then
              (.ok (some ⟨.spectrum, data⟩), st)
            else if (strBytes "<chromatogram").isPrefixOf data then
              (.ok (some ⟨.chromatogram, data⟩), st)
            else (.ok none, st)
      | _ => (.error .typeErr, st)
    | none =>
      match ident with
      | .str s =>
        match searchStringIdentifier f s fuel with
        | .ok fr => (.ok (some fr), st)
        | .error e => (.error e, st)
      | .int n =>
        match binarySearch f st n fuel with
        | (.ok fr, st') => (.ok (some fr), st')
        | (.error e, st') => (.error e, st')

end PymzML

namespace PymzML

/-- Equality of modelled results is decidable. -/
instance exceptDecEq {ε α : Type} [DecidableEq ε] [DecidableEq α] :
    DecidableEq (Except ε α) := fun a b =>
  match a, b with
  | .ok x, .ok y =>
    if h : x = y then .isTrue (congrArg Except.ok h)
    else .isFalse (fun hh => h (Except.ok.inj hh))
  | .error x, .error y =>
    if h : x = y then .isTrue (congrArg Except.error h)
    else .isFalse (fun hh => h (Except.error.inj hh))
  | .ok _, .error _ => .isFalse (fun hh => Except.noConfusion hh)
  | .error _, .ok _ => .isFalse (fun hh => Except.noConfusion hh)

/-! ## Concrete files used by the witnesses and counterexamples -/

/-- A 1050-byte file whose (broken) trailer claims an entry
`scan=7">"30</offset>` at `indexListOffset` 20; byte 30 of the file is a
filler byte, not a tag. -/
def file3 : File :=
  List.replicate 20 97 ++ strBytes "scan=7\">\"30</offset>\n" ++
  List.replicate 970 97 ++ strBytes "\n<indexListOffset>20</indexListOffset>\n"

/-- A 180-byte file with a spectrum fragment at offset 100. -/
def file4 : File :=
  List.replicate 100 97 ++ strBytes "<spectrum id=\"1\">hi</spectrum>" ++
  List.replicate 50 97

/-- A 590-byte file whose only spectrum (scan 2) starts at offset 300 =
`filesize / 2 + 5` and ends at offset 589, followed by a final newline. -/
def file5 : File :=
  List.replicate 300 97 ++
  strBytes "<spectrum index=\"2\" id=\"2\">" ++ List.replicate 251 112 ++
  strBytes "</spectrum>\n"

/-- A 402-byte file whose only spectrum (scan 2) starts exactly at the
interpolation midpoint `filesize / 2 = 201` and whose 200-byte fragment is
followed by a final newline: `_read_to_spec_end` returns the relative end
`200`, one *less* than the absolute start. -/
def file5b : File :=
  List.replicate 201 97 ++
  strBytes "<spectrum index=\"2\" id=\"2\">" ++ List.replicate 162 112 ++
  strBytes "</spectrum>\n"

/-- A 36-byte single-spectrum file without a trailer. -/
def file6 : File := strBytes "xy<spectrum id=\"1\">hello</spectrum>\n"

/-- A 128000-byte file whose only spectrum sits at the very end and has the
undigited id `scan`. -/
def file7 : File :=
  List.replicate 127967 97 ++ strBytes "<spectrum id=\"scan\">x</spectrum>\n"

/-- A 128000-byte file whose only spectrum (scan 1) sits at the very end,
visible to both the head probe and the tail probe. -/
def file3c : File :=
  List.replicate 127970 97 ++ strBytes "<spectrum id=\"1\">x</spectrum>\n"

/-- A 10300-byte file whose `<indexListOffset>` line starts 10200 bytes
before EOF: inside the last 10 KiB, but outside the last 9216 bytes. -/
def file8 : File :=
  List.replicate 100 120 ++ strBytes "<indexListOffset>5</indexListOffset>" ++
  List.replicate 10164 120

/-- A 12-byte file with no markers at all. -/
def file9 : File := strBytes "hello world\n"

/-- The state reached by `_interpol_search(2)` on `file5`. -/
def st5 : MzState := ⟨[(OKey.int 2, OVal.two 300 289)], []⟩

/-- The state reached by `_interpol_search(2)` on `file5b`. -/
def st5b : MzState := ⟨[(OKey.int 2, OVal.two 201 200)], []⟩

/-- Whether a byte stops `_read_until_tag_end`. -/
def isTagStop (b : Byte) : Bool := b = 62 || b = 60 || b = 32

/-- The Offset-Map invariant asserted by the specification: every stored
value is a record `(start, end?)` whose `start` is a byte offset inside the
file at which the byte sequence `<spectrum` or `<chromatogram` begins, with
`start < end` when `end` is present. -/
def offsetEntryOk (f : File) (v : OVal) : Bool :=
  match v with
  | .one s =>
    0 ≤ s && ((strBytes "<spectrum").isPrefixOf (f.drop s.toNat) ||
      (strBytes "<chromatogram").isPrefixOf (f.drop s.toNat))
  | .two s e =>
    0 ≤ s && s < e && ((strBytes "<spectrum").isPrefixOf (f.drop s.toNat) ||
      (strBytes "<chromatogram").isPrefixOf (f.drop s.toNat))
  | _ => false

/-- Sorted ascending and duplicate-free on `scan_id`: adjacent scans
strictly increase. -/
def seekListOrdered (l : List (Int × Int)) : Prop :=
  l.Chain' (fun a b => a.1 < b.1)

/-- Non-strict lexicographic order on seek-list entries (the order
`bisect.bisect_left` works with). -/
def tupLe (a b : Int × Int) : Bool := tupLt a b || a = b

end PymzML

namespace PymzML

/-! ## Lemmas: scanning over padding

The 128 000-byte probe chunk and the 1 KiB trailer slabs force concrete
files far beyond what the kernel can evaluate element-wise, so the
counterexample files are built as `List.replicate`-padding plus a small
concrete block, and the scans are evaluated symbolically over the padding
with the lemmas of this section. -/

theorem scanFirstP_pad {α : Type} (check : ByteStr → Option α) (c : Byte)
    (hc : ∀ t : ByteStr, t.head? = some c → check t = none) (B : ByteStr) :
    ∀ n i, scanFirstP check (List.replicate n c ++ B) i = scanFirstP check B (i + n) := by
  intro n
  induction n with
  | zero => intro i; simp
  | succ n ih =>
    intro i
    rw [List.replicate_succ, List.cons_append]
    simp only [scanFirstP, hc (c :: (List.replicate n c ++ B)) rfl]
    rw [ih (i + 1)]
    congr 1
    omega

theorem scanPositions_pad (pat : ByteStr) (c : Byte)
    (hp : ∀ t : ByteStr, pat.isPrefixOf (c :: t) = false) (B : ByteStr) :
    ∀ n i, scanPositions pat (List.replicate n c ++ B) i = scanPositions pat B (i + n) := by
  intro n
  induction n with
  | zero => intro i; simp
  | succ n ih =>
    intro i
    rw [List.replicate_succ, List.cons_append]
    simp only [scanPositions, hp (List.replicate n c ++ B), Bool.false_eq_true,
      if_false, List.nil_append]
    rw [ih (i + 1)]
    congr 1
    omega

theorem splitLinesAux_pad (c : Byte) (hc : ¬ c = 10) (B : ByteStr) :
    ∀ n cur, splitLinesAux (List.replicate n c ++ B) cur =
      splitLinesAux B (cur ++ List.replicate n c) := by
  intro n
  induction n with
  | zero => intro cur; simp
  | succ n ih =>
    intro cur
    rw [List.replicate_succ, List.cons_append]
    simp only [splitLinesAux, if_neg hc]
    rw [ih (cur ++ [c])]
    congr 1
    rw [List.append_assoc]
    congr 1

end PymzML

namespace PymzML

theorem drop_pad_append_le (c : Byte) (B : ByteStr) (n p : Nat) (h : p ≤ n) :
    (List.replicate n c ++ B).drop p = List.replicate (n - p) c ++ B := by
  rw [List.drop_append_eq_append_drop, List.drop_replicate]
  simp [Nat.sub_eq_zero_of_le, h, List.length_replicate]

theorem drop_pad_append_ge (c : Byte) (B : ByteStr) (n p : Nat) (h : n ≤ p) :
    (List.replicate n c ++ B).drop p = B.drop (p - n) := by
  rw [List.drop_append_eq_append_drop, List.drop_replicate]
  simp [Nat.sub_eq_zero_of_le, h, List.length_replicate]

theorem take_pad_append_le (c : Byte) (B : ByteStr) (n p : Nat) (h : p ≤ n) :
    (List.replicate n c ++ B).take p = List.replicate p c := by
  rw [List.take_append_eq_append_take, List.take_replicate]
  simp [Nat.sub_eq_zero_of_le, h, List.length_replicate, Nat.min_eq_left]

theorem take_pad_append_ge (c : Byte) (B : ByteStr) (n p : Nat) (h : n ≤ p) :
    (List.replicate n c ++ B).take p = List.replicate n c ++ B.take (p - n) := by
  rw [List.take_append_eq_append_take, List.take_replicate]
  simp [List.length_replicate, Nat.min_eq_right, h]

theorem fileRead_whole (f : File) (n : Nat) (h : f.length ≤ n) : fileRead f 0 n = f := by
  simp [fileRead, List.take_of_length_le, h]

/-! Head-byte failure facts for the pad bytes used by the big files
(`97 = 'a'` for the probe files, `120 = 'x'` for the trailer file). -/

theorem spectrumLit_bytes : spectrumLit = [115, 112, 101, 99, 116, 114, 117, 109] := by decide

theorem specIdCheck_cons_a (t : ByteStr) : specIdCheck (97 :: t) = none := by
  have h8 : spectrumLit.isPrefixOf (97 :: t) = false := by
    rw [spectrumLit_bytes]; simp [List.isPrefixOf]
  have hlt : ltRun (97 :: t) = 0 := by simp [ltRun, List.takeWhile_cons]
  simp [specIdCheck, hlt, h8]

theorem specIdCheck_head_a :
    ∀ t : ByteStr, t.head? = some 97 → specIdCheck t = none := by
  intro t ht
  cases t with
  | nil => simp at ht
  | cons b t' =>
    simp at ht
    subst ht
    exact specIdCheck_cons_a t'

theorem specOpenSimple_cons_a (t : ByteStr) :
    SPECTRUM_OPEN_PATTERN_SIMPLE.isPrefixOf (97 :: t) = false := by
  rw [show SPECTRUM_OPEN_PATTERN_SIMPLE =
    60 :: [115, 112, 101, 99, 116, 114, 117, 109, 32] from by decide]
  simp [List.isPrefixOf]

theorem chromOffsetCheck_head_x :
    ∀ t : ByteStr, t.head? = some 120 → chromOffsetCheck t = none := by
  intro t ht
  cases t with
  | nil => simp at ht
  | cons b t' =>
    simp at ht
    subst ht
    simp [chromOffsetCheck, ticClassChars, strBytes]

theorem spectrumIndexSciexCheck_head_x :
    ∀ t : ByteStr, t.head? = some 120 → spectrumIndexSciexCheck t = none := by
  intro t ht
  cases t with
  | nil => simp at ht
  | cons b t' =>
    simp at ht
    subst ht
    have : (strBytes "cycle=").isPrefixOf (120 :: t') = false := by
      rw [show strBytes "cycle=" = 99 :: [121, 99, 108, 101, 61] from by decide]
      simp [List.isPrefixOf]
    simp [spectrumIndexSciexCheck, this]

theorem indexListOffsetCheck_head_x :
    ∀ t : ByteStr, t.head? = some 120 → indexListOffsetCheck t = none := by
  intro t ht
  cases t with
  | nil => simp at ht
  | cons b t' =>
    simp at ht
    subst ht
    have : (strBytes "<indexListOffset>").isPrefixOf (120 :: t') = false := by
      rw [show strBytes "<indexListOffset>" =
        60 :: [105, 110, 100, 101, 120, 76, 105, 115, 116, 79, 102, 102, 115, 101, 116, 62]
        from by decide]
      simp [List.isPrefixOf]
    simp [indexListOffsetCheck, this]

/-! Python list indexing at the ends. -/

theorem pyIdx_zero {α : Type} (e : α) (l : List α) : pyIdx (e :: l) 0 = .ok e := by
  simp [pyIdx]

theorem pyIdx_neg_one {α : Type} (l : List α) (h : l ≠ []) :
    pyIdx l (-1) = .ok (l.getLast h) := by
  have hlen : 1 ≤ l.length := List.length_pos.mpr h
  have hj : (if (-1 : Int) < 0 then (-1 : Int) + l.length else -1) = ((l.length - 1 : Nat) : Int) := by
    simp
    omega
  have hc : (0 : Int) ≤ ((l.length - 1 : Nat) : Int) ∧
      ((l.length - 1 : Nat) : Int).toNat < l.length := by
    constructor
    · exact Int.ofNat_nonneg _
    · simp
      omega
  simp only [pyIdx, hj]
  rw [dif_pos hc]
  congr 1
  rw [List.getLast_eq_getElem]
  simp [List.get_eq_getElem]

end PymzML

namespace PymzML

/-! ## C1 -/

theorem binJumpLoop_out_of_range (f : File) (t : Int) (fuel : Nat) (js : JumpSt)
    (d : ODict) (e : Int × Int) (rest : List (Int × Int))
    (hout : t < e.1 ∨ ((e :: rest).getLast (by simp)).1 < t) :
    binJumpLoop f t (fuel + 1) js ⟨d, e :: rest⟩ = (.error .outOfRange, ⟨d, e :: rest⟩) := by
  have hga : pyIdx (e :: rest) 0 = .ok e := pyIdx_zero e rest
  have hgb : pyIdx (e :: rest) (-1) = .ok ((e :: rest).getLast (by simp)) :=
    pyIdx_neg_one _ (by simp)
  have hcond : (t < e.1 || ((e :: rest).getLast (by simp)).1 < t) = true := by
    rcases hout with h | h <;> simp [h]
  unfold binJumpLoop
  rw [hga, hgb]
  dsimp only
  rw [hcond]
  rfl

/-- C1: for every integer request strictly below the first seek-list scan or
strictly above the last one, and not already a key of the offset dict,
`_binary_search` raises the out-of-range error (precondition: the seek list
is non-empty, i.e. holds the extremes). -/
theorem C1_binary_search_out_of_range (f : File) (st : MzState) (t : Int) (fuel : Nat)
    (hmem : dictMem st.offset_dict (OKey.int t) = false)
    (hne : st.seek_list ≠ [])
    (hout : t < (st.seek_list.head hne).1 ∨ (st.seek_list.getLast hne).1 < t) :
    binarySearch f st t fuel = (.error .outOfRange, st) := by
  obtain ⟨d, l⟩ := st
  cases l with
  | nil => exact absurd rfl hne
  | cons e rest =>
    have h40 : (40 : Nat) = 39 + 1 := rfl
    unfold binarySearch
    rw [hmem]
    simp only [Bool.false_eq_true, if_false, h40]
    rw [binJumpLoop_out_of_range f t 39 ⟨10, 0, 0⟩ d e rest hout]

/-- Witness for C1 at a concrete input. -/
theorem C1_binary_search_out_of_range_witness :
    (dictMem ([] : ODict) (OKey.int 0) = false ∧
      ([((1 : Int), (0 : Int)), (9, 100)] ≠ ([] : List (Int × Int)))) ∧
    binarySearch [] ⟨[], [(1, 0), (9, 100)]⟩ 0 3 =
      (.error .outOfRange, ⟨[], [(1, 0), (9, 100)]⟩) :=
  ⟨⟨by decide, by decide⟩,
    C1_binary_search_out_of_range [] ⟨[], [(1, 0), (9, 100)]⟩ 0 3 (by decide)
      (by decide) (by decide)⟩

/-! ## C9 -/

/-- C9 counterexample: on a file without a trailer and
`build_index_from_scratch = False`, the constructor's `_build_index` prints
the warning but leaves the offset map holding the `TIC` placeholder — the
map is not empty, contradicting the claim. -/
theorem C9_counterexample :
    buildIndex file9 [] false = .ok ([(ticKey, OVal.none)], true) ∧
    [(ticKey, OVal.none)] ≠ ([] : ODict) :=
  ⟨by decide, by decide⟩

/-- C9 (amended): when the backward trailer scan finds no index and
`from_scratch` is false, `_build_index` emits the warning and leaves the
offset map with exactly the `TIC` entry (the `None` placeholder, or the
`TIC` offset the scan discovered) and no spectrum entries. -/
theorem exceptBind_ok {ε α β : Type} (a : α) (k : α → Except ε β) :
    (Except.ok a >>= k) = k a := rfl

theorem C9_no_trailer_warning (f : File) (ts : TrailerSt)
    (hts : trailerScan f = .ok ts) (hnf : ts.indexFound = false) :
    buildIndex f [] false = .ok ([(ticKey, ts.tic)], true) := by
  unfold buildIndex
  rw [hts]
  simp [dictSet, dictMem, exceptBind_ok, hnf]

/-- Witness for C9 (amended) at a concrete input. -/
theorem C9_no_trailer_warning_witness :
    (trailerScan file9 = .ok ⟨OVal.none, [], false, 0⟩ ∧
      (⟨OVal.none, [], false, 0⟩ : TrailerSt).indexFound = false) ∧
    buildIndex file9 [] false = .ok ([(ticKey, OVal.none)], true) :=
  ⟨⟨by decide, by decide⟩,
    C9_no_trailer_warning file9 ⟨OVal.none, [], false, 0⟩ (by decide) (by decide)⟩

/-! ## C2 counterexample -/

/-- C2 counterexample: after construction on `file3` (whose trailer points
at a `scan=7">"30</offset>` line), the offset map holds the `TIC`
placeholder `None` and the bare int `30` under key `7`; neither is a
`(start, end?)` record whose start byte begins `<spectrum`/`<chromatogram`
(byte 30 of `file3` is filler), so the claimed invariant fails. -/
theorem C2_counterexample :
    buildIndex file3 [] false =
      .ok ([(ticKey, OVal.none), (OKey.int 7, OVal.bare 30)], false) ∧
    ¬ (∀ kv ∈ [(ticKey, OVal.none), (OKey.int 7, OVal.bare 30)],
        offsetEntryOk file3 kv.2 = true) :=
  ⟨by decide, by decide⟩

/-! ## C4 counterexample -/

/-- C4 counterexample: at entry position 100 of `file4`, the close tag
`</spectrum>` starts at absolute offset 119 and ends at 130, yet
`_read_to_spec_end` returns `(100, 30)` — the second component is the
offset *relative* to the entry position (`match.end()` in the accumulated
chunk), not the absolute offset 130, and `start < end` fails. -/
theorem C4_counterexample :
    readToSpecEnd file4 100 3 = .ok (100, 30) ∧
    findPat SPECTRUM_CLOSE_PATTERN (file4.drop 100) = some 19 ∧
    ¬ (100 < 30) ∧ (30 : Nat) ≠ 100 + 19 + 11 :=
  ⟨by decide, by decide, by decide, by decide⟩

/-! ## C5 counterexample -/

/-- C5 counterexample: on `file5b`, `_interpol_search(2)` — a search
strategy that inserts `2` into the offset map — stores the *relative* end
`200` next to the absolute start `201` and then calls
`seeker.read(end - start) = read(-1)`, which reads to EOF: its fragment
carries the trailing newline (201 bytes).  The subsequent direct-hit
`get(2)` reads `end = 200` bytes from the same start: the two fragments
are not byte-identical.  (On `file5`, where `end - start = -11 < -1`, the
same line raises `ValueError` instead, after the map was mutated.) -/
theorem C5_counterexample :
    interpolSearch file5b ⟨[], []⟩ 2 20 =
      (.ok ⟨.spectrum, file5b.drop 201⟩, st5b) ∧
    getItem file5b st5b (OKey.int 2) 20 =
      (.ok (some ⟨.spectrum, fileRead file5b 201 200⟩), st5b) ∧
    file5b.drop 201 ≠ fileRead file5b 201 200 ∧
    interpolSearch file5 ⟨[], []⟩ 2 20 = (.error .valueErr, st5) :=
  ⟨by decide, by decide, by decide, by decide⟩

/-! ## C6 counterexample -/

/-- C6 counterexample: `file6` contains exactly one spectrum (scan 1) and no
trailer.  The constructor does produce a seek list of length one, but
`get(1)` fails: the head-probe offset is `36 - 128000 + 2 < 0`, the jump
search's `bisect_left` therefore lands *after* the single entry, and
`seek_list[insert_position]` raises `IndexError` — `get` of the spectrum's
id does not succeed. -/
theorem C6_counterexample :
    standardMzmlInit file6 false =
      .ok ⟨[(ticKey, OVal.none)], [(1, -127962)]⟩ ∧
    getItem file6 ⟨[(ticKey, OVal.none)], [(1, -127962)]⟩ (OKey.int 1) 5 =
      (.error .indexErr, ⟨[(ticKey, OVal.none)], [(1, -127962)]⟩) :=
  ⟨by decide, by decide⟩

end PymzML

namespace PymzML

/-! ## C5 (amended): determinism of `get` on indexed identifiers -/

theorem dictMem_dictFind {κ ν : Type} [DecidableEq κ] (d : List (κ × ν)) (k : κ)
    (h : dictMem d k = true) : ∃ v, dictFind d k = some v := by
  induction d with
  | nil => simp [dictMem] at h
  | cons p rest ih =>
    by_cases hk : p.1 = k
    · exact ⟨p.2, by simp [dictFind, List.find?, hk]⟩
    · have h' : dictMem rest k = true := by
        simp [dictMem, hk] at h
        simpa [dictMem] using h
      obtain ⟨v, hv⟩ := ih h'
      exact ⟨v, by simpa [dictFind, List.find?, hk] using hv⟩

/-- C5 (amended): for every identifier present in the offset dict, a `get`
call leaves the state (offset dict and seek list) unchanged, so two
successive `get(n)` calls on the same unchanged file return identical
results — including byte-identical fragments.  (The stronger original
claim also equated these with the fragment a *search strategy* produced
when inserting `n`; `C5_counterexample` refutes that part.) -/
theorem C5_get_deterministic (f : File) (st : MzState) (ident : OKey) (fuel : Nat)
    (hmem : dictMem st.offset_dict ident = true) :
    (getItem f st ident fuel).2 = st ∧
    getItem f ((getItem f st ident fuel).2) ident fuel = getItem f st ident fuel := by
  have hstate : (getItem f st ident fuel).2 = st := by
    obtain ⟨v, hv⟩ := dictMem_dictFind _ _ hmem
    unfold getItem
    cases htic : isTicName ident with
    | true =>
      rw [if_pos rfl]
      cases ticStream f <;> rfl
    | false =>
      rw [if_neg Bool.false_ne_true, hv]
      cases v with
      | none => rfl
      | bare o => rfl
      | one s =>
        dsimp only
        by_cases hs : s < 0
        · rw [if_pos hs]
        · rw [if_neg hs]
          cases hrp : readToSpecEnd f s.toNat fuel with
          | error e => rfl
          | ok p =>
            obtain ⟨start, endRel⟩ := p
            dsimp only
            by_cases h1 : (strBytes "<spectrum").isPrefixOf (fileRead f start endRel) = true
            · rw [if_pos h1]
            · rw [if_neg h1]
              by_cases h2 :
                  (strBytes "<chromatogram").isPrefixOf (fileRead f start endRel) = true
              · rw [if_pos h2]
              · rw [if_neg h2]
      | two s e =>
        dsimp only
        by_cases hs : s < 0
        · rw [if_pos hs]
        · rw [if_neg hs]
          cases hrp : readToSpecEnd f s.toNat fuel with
          | error er => rfl
          | ok p =>
            obtain ⟨start, endRel⟩ := p
            dsimp only
            by_cases h1 : (strBytes "<spectrum").isPrefixOf (fileRead f start endRel) = true
            · rw [if_pos h1]
            · rw [if_neg h1]
              by_cases h2 :
                  (strBytes "<chromatogram").isPrefixOf (fileRead f start endRel) = true
              · rw [if_pos h2]
              · rw [if_neg h2]
  exact ⟨hstate, by rw [hstate]⟩

/-- Witness for C5 (amended) at a concrete input. -/
theorem C5_get_deterministic_witness :
    dictMem st5.offset_dict (OKey.int 2) = true ∧
    ((getItem file5 st5 (OKey.int 2) 20).2 = st5 ∧
      getItem file5 ((getItem file5 st5 (OKey.int 2) 20).2) (OKey.int 2) 20 =
        getItem file5 st5 (OKey.int 2) 20) :=
  ⟨by decide, C5_get_deterministic file5 st5 (OKey.int 2) 20 (by decide)⟩

end PymzML

namespace PymzML

/-! ## C10: full characterisation of `_read_until_tag_end` -/

theorem readUntilTagEndGo_stop (f : File) (fuel pos : Nat) (s curr : ByteStr)
    (h : curr = [62] ∨ curr = [60] ∨ curr = [32]) :
    readUntilTagEndGo f fuel pos s curr = (s, pos) := by
  cases fuel with
  | zero => rfl
  | succ n =>
    have hb : (decide (curr = [62]) || decide (curr = [60]) || decide (curr = [32])) = true := by
      rcases h with h | h | h <;> simp [h]
    unfold readUntilTagEndGo
    rw [hb, if_pos rfl]

theorem isTagStop_iff (x : Byte) :
    isTagStop x = true ↔
      (([x] : ByteStr) = [62] ∨ ([x] : ByteStr) = [60] ∨ ([x] : ByteStr) = [32]) := by
  simp [isTagStop, or_assoc]

theorem fileRead_one_nil (f : File) (pos : Nat) (h : fileRead f pos 1 = []) :
    f.length ≤ pos := by
  unfold fileRead at h
  cases hd : f.drop pos with
  | nil => exact List.drop_eq_nil_iff.mp hd
  | cons y r => rw [hd] at h; simp at h

theorem fileRead_one_cons (f : File) (pos : Nat) (x : Byte)
    (h : fileRead f pos 1 = [x]) (n : Nat) :
    fileRead f pos (n + 1) = x :: fileRead f (pos + 1) n := by
  unfold fileRead at h ⊢
  cases hd : f.drop pos with
  | nil => rw [hd] at h; simp at h
  | cons y r =>
    rw [hd] at h
    simp at h
    have hr : f.drop (pos + 1) = r := by
      have h2 : (f.drop pos).drop 1 = f.drop (pos + 1) := List.drop_drop 1 pos f
      rw [hd] at h2
      exact h2.symm
    rw [hr, h, List.take_succ_cons]

theorem fileRead_len_le (f : File) (pos n : Nat) : (fileRead f pos n).length ≤ n := by
  simp only [fileRead]
  exact List.length_take_le n (f.drop pos)

theorem readUntilTagEndGo_spec (f : File) :
    ∀ (fuel pos : Nat) (s curr : ByteStr),
      ∃ t, readUntilTagEndGo f fuel pos s curr = (s ++ t, pos + t.length) ∧
        t = fileRead f pos t.length ∧
        t.length ≤ fuel ∧
        (∀ i, i + 1 < t.length → isTagStop (t.getD i 0) = false) ∧
        (¬ (curr = [62] ∨ curr = [60] ∨ curr = [32]) → t.length < fuel →
          pos + t.length < f.length →
          t ≠ [] ∧ isTagStop (t.getD (t.length - 1) 0) = true) := by
  intro fuel
  induction fuel with
  | zero =>
    intro pos s curr
    exact ⟨[], by simp [readUntilTagEndGo], by simp [fileRead], by simp, by simp,
      fun _ h => absurd h (by omega)⟩
  | succ n ih =>
    intro pos s curr
    by_cases hcur : curr = [62] ∨ curr = [60] ∨ curr = [32]
    · refine ⟨[], ?_, by simp [fileRead], by simp, by simp, fun hc => absurd hcur hc⟩
      rw [readUntilTagEndGo_stop f (n + 1) pos s curr hcur]
      simp
    · have hb : (decide (curr = [62]) || decide (curr = [60]) || decide (curr = [32])) = false := by
        push_neg at hcur
        simp [hcur.1, hcur.2.1, hcur.2.2]
      have hstep : readUntilTagEndGo f (n + 1) pos s curr =
          readUntilTagEndGo f n (pos + (fileRead f pos 1).length)
            (s ++ fileRead f pos 1) (fileRead f pos 1) := by
        conv_lhs => rw [readUntilTagEndGo]
        rw [hb]
        rfl
      cases hb1 : fileRead f pos 1 with
      | nil =>
        have heof : f.length ≤ pos := fileRead_one_nil f pos hb1
        obtain ⟨t, h1, h2, h3, h4, h5⟩ := ih pos s ([] : ByteStr)
        have ht0 : t = [] := by
          rw [h2]
          unfold fileRead
          rw [List.drop_eq_nil_iff.mpr heof]
          simp
        refine ⟨[], ?_, by simp [fileRead], by simp, by simp, ?_⟩
        · rw [hstep, hb1]
          simp only [List.append_nil, List.length_nil, Nat.add_zero]
          rw [h1, ht0]
          simp
        · intro _ _ h3'
          simp only [List.length_nil] at h3'
          omega
      | cons x xr =>
        have hx1 : fileRead f pos 1 = [x] := by
          have hle : (fileRead f pos 1).length ≤ 1 := fileRead_len_le f pos 1
          rw [hb1] at hle ⊢
          simp only [List.length_cons] at hle
          have hxr : xr.length = 0 := by omega
          rw [List.length_eq_zero.mp hxr]
        obtain ⟨t', h1, h2, h3, h4, h5⟩ := ih (pos + 1) (s ++ [x]) [x]
        have hrec : readUntilTagEndGo f (n + 1) pos s curr =
            (s ++ [x] ++ t', pos + 1 + t'.length) := by
          rw [hstep, hx1]
          simpa using h1
        have htermStop : ([x] : ByteStr) = [62] ∨ ([x] : ByteStr) = [60] ∨
            ([x] : ByteStr) = [32] → t' = [] := by
          intro h62
          have hstop := readUntilTagEndGo_stop f n (pos + 1) (s ++ [x]) [x] h62
          rw [hstop] at h1
          have hlen2 := congrArg (fun p => p.2) h1
          simp only at hlen2
          have hz : t'.length = 0 := by omega
          exact List.length_eq_zero.mp hz
        have hxterm : t' ≠ [] → isTagStop x = false := by
          intro hne
          cases hq : isTagStop x
          · rfl
          · exact absurd (htermStop ((isTagStop_iff x).mp hq)) hne
        refine ⟨x :: t', ?_, ?_, ?_, ?_, ?_⟩
        · rw [hrec]
          simp only [Prod.mk.injEq, List.append_assoc, List.singleton_append,
            List.length_cons]
          exact ⟨trivial, by omega⟩
        · rw [List.length_cons, fileRead_one_cons f pos x hx1 t'.length, ← h2]
        · simp only [List.length_cons]
          omega
        · intro i hi
          simp only [List.length_cons] at hi
          cases i with
          | zero =>
            simp only [List.getD_cons_zero]
            refine hxterm ?_
            intro h0
            rw [h0] at hi
            simp at hi
          | succ j =>
            simp only [List.getD_cons_succ]
            exact h4 j (by omega)
        · intro _ hlen hin
          simp only [List.length_cons] at hlen hin
          refine ⟨by simp, ?_⟩
          by_cases ht' : t' = []
          · subst ht'
            simp only [List.length_nil] at hlen hin
            simp only [List.length_cons, List.length_nil, Nat.add_sub_cancel,
              List.getD_cons_zero]
            cases hq : isTagStop x
            · have hnt : ¬ (([x] : ByteStr) = [62] ∨ ([x] : ByteStr) = [60] ∨
                  ([x] : ByteStr) = [32]) := by
                intro hor
                rw [(isTagStop_iff x).mpr hor] at hq
                cases hq
              have h5' := h5 hnt (by simp only [List.length_nil]; omega)
                (by simp only [List.length_nil]; omega)
              exact absurd rfl h5'.1
            · rfl
          · have hxf : isTagStop x = false := hxterm ht'
            have hnt : ¬ (([x] : ByteStr) = [62] ∨ ([x] : ByteStr) = [60] ∨
                ([x] : ByteStr) = [32]) := by
              intro hor
              rw [(isTagStop_iff x).mpr hor] at hxf
              cases hxf
            have h5' := h5 hnt (by omega) (by omega)
            obtain ⟨y, yr, hyy⟩ := List.exists_cons_of_ne_nil ht'
            subst hyy
            simpa [List.getD_cons_succ, List.length_cons] using h5'.2

/-- C10: `_read_until_tag_end` terminates and returns at most
`max_search_len = 12` bytes — exactly the bytes found at the entry
position — advancing the seeker by exactly the length of the returned
string; every returned byte before the last is none of `>`, `<`, ` `, and
whenever the loop stopped early with file bytes remaining, the last
returned byte is such a terminator (hence the first one encountered). -/
theorem C10_read_until_tag_end (f : File) (pos : Nat) :
    ((readUntilTagEnd f pos).1).length ≤ 12 ∧
    (readUntilTagEnd f pos).2 = pos + ((readUntilTagEnd f pos).1).length ∧
    (readUntilTagEnd f pos).1 = fileRead f pos ((readUntilTagEnd f pos).1).length ∧
    (∀ i, i + 1 < ((readUntilTagEnd f pos).1).length →
      isTagStop (((readUntilTagEnd f pos).1).getD i 0) = false) ∧
    (((readUntilTagEnd f pos).1).length < 12 →
      pos + ((readUntilTagEnd f pos).1).length < f.length →
      (readUntilTagEnd f pos).1 ≠ [] ∧
      isTagStop (((readUntilTagEnd f pos).1).getD
        (((readUntilTagEnd f pos).1).length - 1) 0) = true) := by
  obtain ⟨t, h1, h2, h3, h4, h5⟩ := readUntilTagEndGo_spec f 12 pos [] []
  have hr : readUntilTagEnd f pos = (t, pos + t.length) := by
    unfold readUntilTagEnd
    rw [h1]
    simp
  rw [hr]
  exact ⟨h3, rfl, h2, h4, h5 (by simp)⟩

/-- Witness for C10 at a concrete input. -/
theorem C10_read_until_tag_end_witness :
    ((readUntilTagEnd file4 100).1).length ≤ 12 :=
  (C10_read_until_tag_end file4 100).1

end PymzML

namespace PymzML

/-! ## C4 (amended): `_read_to_spec_end` returns a relative end offset -/

theorem isPrefixOf_append_of_le (pat l r : ByteStr) (h : pat.length ≤ l.length) :
    pat.isPrefixOf (l ++ r) = pat.isPrefixOf l := by
  by_cases hl : pat.isPrefixOf l = true
  · rw [hl]
    rw [List.isPrefixOf_iff_prefix] at hl ⊢
    exact hl.trans (List.prefix_append l r)
  · have hl' : pat.isPrefixOf l = false := by
      cases hq : pat.isPrefixOf l
      · rfl
      · exact absurd hq hl
    rw [hl']
    cases hq : pat.isPrefixOf (l ++ r)
    · rfl
    · exfalso
      rw [List.isPrefixOf_iff_prefix] at hq
      have htake : pat = (l ++ r).take pat.length := List.prefix_iff_eq_take.mp hq
      rw [List.take_append_eq_append_take, Nat.sub_eq_zero_of_le h] at htake
      simp only [List.take_zero, List.append_nil] at htake
      have : pat.isPrefixOf l = true := by
        rw [List.isPrefixOf_iff_prefix, htake]
        exact List.take_prefix pat.length l
      rw [this] at hl'
      cases hl'

theorem scanFirstP_lit_mono (pat r : ByteStr) :
    ∀ (d : ByteStr) (j i : Nat),
      scanFirstP (fun t => if pat.isPrefixOf t then some () else none) d j = some (i, ()) →
      j ≤ i ∧ i - j + pat.length ≤ d.length ∧
      scanFirstP (fun t => if pat.isPrefixOf t then some () else none) (d ++ r) j =
        some (i, ()) := by
  intro d
  induction d with
  | nil => intro j i h; simp [scanFirstP] at h
  | cons b d' ih =>
    intro j i h
    by_cases hp : pat.isPrefixOf (b :: d') = true
    · have hji : i = j := by
        rw [scanFirstP, hp] at h
        simp at h
        exact h.symm
      have hplen : pat.length ≤ (b :: d').length := by
        rw [List.isPrefixOf_iff_prefix] at hp
        exact hp.length_le
      subst hji
      refine ⟨Nat.le_refl i, by simpa using hplen, ?_⟩
      have hp2 : pat.isPrefixOf (b :: (d' ++ r)) = true := by
        rw [List.isPrefixOf_iff_prefix] at hp ⊢
        exact hp.trans (List.prefix_append (b :: d') r)
      rw [List.cons_append, scanFirstP, hp2]
      rfl
    · have hp' : pat.isPrefixOf (b :: d') = false := by
        cases hq : pat.isPrefixOf (b :: d')
        · rfl
        · exact absurd hq hp
      have h' : scanFirstP (fun t => if pat.isPrefixOf t then some () else none)
          d' (j + 1) = some (i, ()) := by
        rw [scanFirstP, hp'] at h
        simpa using h
      obtain ⟨hle, hlen, hmono⟩ := ih (j + 1) i h'
      have hpl : pat.length ≤ d'.length := by omega
      have hext : pat.isPrefixOf ((b :: d') ++ r) = false := by
        rw [List.cons_append]
        have := isPrefixOf_append_of_le pat (b :: d') r (by simp; omega)
        rw [List.cons_append] at this
        rw [this, hp']
      refine ⟨by omega, by simp; omega, ?_⟩
      rw [List.cons_append, scanFirstP]
      rw [List.cons_append] at hext
      rw [hext]
      simpa using hmono

theorem findPat_mono (pat d r : ByteStr) (i : Nat) (h : findPat pat d = some i) :
    findPat pat (d ++ r) = some i := by
  unfold findPat at h ⊢
  cases hs : scanFirstP (fun t => if pat.isPrefixOf t then some () else none) d 0 with
  | none => rw [hs] at h; simp at h
  | some p =>
    rw [hs] at h
    simp at h
    obtain ⟨i', u⟩ := p
    have hu : u = () := rfl
    subst hu
    simp at h
    subst h
    rw [(scanFirstP_lit_mono pat r d 0 i' hs).2.2]
    rfl

theorem fileRead_glue (f : File) (p : Nat) (d r : ByteStr) (n : Nat)
    (hd : d = fileRead f p d.length) (hr : r = fileRead f (p + d.length) n) :
    d ++ r = fileRead f p (d ++ r).length := by
  have hle : r.length ≤ n := by
    rw [hr]; exact fileRead_len_le f (p + d.length) n
  have hrlen : r = fileRead f (p + d.length) r.length := by
    unfold fileRead at hr ⊢
    rw [← Nat.min_eq_left hle, ← List.take_take, ← hr, List.take_length]
  unfold fileRead at hd hrlen ⊢
  rw [List.length_append, List.take_add, ← hd, List.drop_drop, ← hrlen]

end PymzML

namespace PymzML

theorem readToSpecEndGo_succ (f : File) (chunkSize n rpos : Nat) (data : ByteStr) :
    readToSpecEndGo f chunkSize (n + 1) rpos data =
      (match findPat SPECTRUM_CLOSE_PATTERN
          (data ++ fileRead f rpos chunkSize ++
            (readUntilTagEnd f (rpos + (fileRead f rpos chunkSize).length)).1) with
       | some i => .ok (i + SPECTRUM_CLOSE_PATTERN.length)
       | none =>
         match findPat CHROMATOGRAM_CLOSE_PATTERN
             (data ++ fileRead f rpos chunkSize ++
               (readUntilTagEnd f (rpos + (fileRead f rpos chunkSize).length)).1) with
         | some i => .ok (i + CHROMATOGRAM_CLOSE_PATTERN.length)
         | none =>
           readToSpecEndGo f chunkSize n
             (readUntilTagEnd f (rpos + (fileRead f rpos chunkSize).length)).2
             (data ++ fileRead f rpos chunkSize ++
               (readUntilTagEnd f (rpos + (fileRead f rpos chunkSize).length)).1)) := rfl

theorem readToSpecEndGo_close (f : File) (chunkSize : Nat) :
    ∀ (fuel pos0 rpos : Nat) (data : ByteStr) (e : Nat),
      data = fileRead f pos0 data.length →
      rpos = pos0 + data.length →
      readToSpecEndGo f chunkSize fuel rpos data = .ok e →
      (∃ i, findPat SPECTRUM_CLOSE_PATTERN (f.drop pos0) = some i ∧
          e = i + SPECTRUM_CLOSE_PATTERN.length) ∨
      (∃ i, findPat CHROMATOGRAM_CLOSE_PATTERN (f.drop pos0) = some i ∧
          e = i + CHROMATOGRAM_CLOSE_PATTERN.length) := by
  intro fuel
  induction fuel with
  | zero =>
    intro pos0 rpos data e _ _ h
    exact absurd h (by simp [readToSpecEndGo])
  | succ n ih =>
    intro pos0 rpos data e hd hr h
    rw [readToSpecEndGo_succ] at h
    obtain ⟨t, hte, hteq, -, -, -⟩ :=
      readUntilTagEndGo_spec f 12 (rpos + (fileRead f rpos chunkSize).length) [] []
    have hte' : readUntilTagEnd f (rpos + (fileRead f rpos chunkSize).length) =
        (t, rpos + (fileRead f rpos chunkSize).length + t.length) := by
      rw [readUntilTagEnd, hte]
      simp
    rw [hte'] at h
    have hglue1 : data ++ fileRead f rpos chunkSize =
        fileRead f pos0 (data ++ fileRead f rpos chunkSize).length := by
      refine fileRead_glue f pos0 data (fileRead f rpos chunkSize) chunkSize hd ?_
      rw [← hr]
    have hglue2 : data ++ fileRead f rpos chunkSize ++ t =
        fileRead f pos0 (data ++ fileRead f rpos chunkSize ++ t).length := by
      refine fileRead_glue f pos0 (data ++ fileRead f rpos chunkSize) t t.length hglue1 ?_
      have hp : rpos + (fileRead f rpos chunkSize).length =
          pos0 + (data ++ fileRead f rpos chunkSize).length := by
        rw [List.length_append]; omega
      rw [← hp]
      exact hteq
    have hsplit : f.drop pos0 =
        (data ++ fileRead f rpos chunkSize ++ t) ++
          ((f.drop pos0).drop (data ++ fileRead f rpos chunkSize ++ t).length) := by
      conv_lhs => rw [← List.take_append_drop
        ((data ++ fileRead f rpos chunkSize ++ t).length) (f.drop pos0)]
      congr 1
      unfold fileRead at hglue2
      exact hglue2.symm
    cases hspec : findPat SPECTRUM_CLOSE_PATTERN (data ++ fileRead f rpos chunkSize ++ t) with
    | some i =>
      rw [hspec] at h
      simp only [Except.ok.injEq] at h
      left
      refine ⟨i, ?_, h.symm⟩
      rw [hsplit]
      exact findPat_mono _ _ _ i hspec
    | none =>
      rw [hspec] at h
      cases hchrom : findPat CHROMATOGRAM_CLOSE_PATTERN
          (data ++ fileRead f rpos chunkSize ++ t) with
      | some i =>
        rw [hchrom] at h
        simp only [Except.ok.injEq] at h
        right
        refine ⟨i, ?_, h.symm⟩
        rw [hsplit]
        exact findPat_mono _ _ _ i hchrom
      | none =>
        rw [hchrom] at h
        refine ih pos0 _ _ e hglue2 ?_ h
        simp only [List.length_append]
        omega

/-- C4: `_read_to_spec_end(seeker)`, when it succeeds, returns
`(start, end)` where `start` is the position at entry and `end` is an
offset *relative to* `start` (the length of the fragment up to and
including the close tag): `start + end` lands one past the first
`</spectrum>` occurrence at or after `start` (that pattern is tried
first), or one past the first `</chromatogram>` occurrence when no
`</spectrum>` was found in the data read.  The spec's reading of `end`
as an absolute file offset of the close tag holds only for
`start = 0`. -/
theorem C4_read_to_spec_end_relative (f : File) (pos fuel s e : Nat)
    (h : readToSpecEnd f pos fuel = .ok (s, e)) :
    s = pos ∧
    ((∃ i, findPat SPECTRUM_CLOSE_PATTERN (f.drop pos) = some i ∧
        e = i + SPECTRUM_CLOSE_PATTERN.length) ∨
     (∃ i, findPat CHROMATOGRAM_CLOSE_PATTERN (f.drop pos) = some i ∧
        e = i + CHROMATOGRAM_CLOSE_PATTERN.length)) := by
  rw [readToSpecEnd] at h
  cases hgo : readToSpecEndGo f (512 * 8) fuel
      (pos + (fileRead f pos (512 * 8)).length) (fileRead f pos (512 * 8)) with
  | error er => rw [hgo] at h; simp [Except.map] at h
  | ok e' =>
    rw [hgo] at h
    simp only [Except.map, Except.ok.injEq, Prod.mk.injEq] at h
    obtain ⟨hs, he⟩ := h
    subst hs
    subst he
    refine ⟨rfl, ?_⟩
    refine readToSpecEndGo_close f (512 * 8) fuel pos _ _ e' ?_ ?_ hgo
    · unfold fileRead
      rw [List.length_take, ← List.take_take, List.take_length]
    · rfl

/-- Witness for C4 at `file4`, `pos = 100`: the call returns
`(100, 30)` and indeed `</spectrum>` first occurs 19 bytes after
position 100, so `30 = 19 + 11` is relative, not absolute. -/
theorem C4_read_to_spec_end_relative_witness :
    (100 : Nat) = 100 ∧
    ((∃ i, findPat SPECTRUM_CLOSE_PATTERN (file4.drop 100) = some i ∧
        30 = i + SPECTRUM_CLOSE_PATTERN.length) ∨
     (∃ i, findPat CHROMATOGRAM_CLOSE_PATTERN (file4.drop 100) = some i ∧
        30 = i + CHROMATOGRAM_CLOSE_PATTERN.length)) :=
  C4_read_to_spec_end_relative file4 100 3 100 30 (by decide)

end PymzML

namespace PymzML

/-! ## C8: the backward trailer walk covers 9216 bytes, not 10 KiB -/

theorem trailerLine_pad (st : TrailerSt) (n : Nat) :
    trailerLine st (List.replicate n 120) = .ok st := by
  have h1 : scanFirstP chromOffsetCheck (List.replicate n 120) 0 = none := by
    rw [← List.append_nil (List.replicate n 120),
      scanFirstP_pad chromOffsetCheck 120 chromOffsetCheck_head_x [] n 0]
    simp [scanFirstP]
  have h2 : scanFirstP spectrumIndexSciexCheck (List.replicate n 120) 0 = none := by
    rw [← List.append_nil (List.replicate n 120),
      scanFirstP_pad spectrumIndexSciexCheck 120 spectrumIndexSciexCheck_head_x [] n 0]
    simp [scanFirstP]
  have h3 : scanFirstP indexListOffsetCheck (List.replicate n 120) 0 = none := by
    rw [← List.append_nil (List.replicate n 120),
      scanFirstP_pad indexListOffsetCheck 120 indexListOffsetCheck_head_x [] n 0]
    simp [scanFirstP]
  simp [trailerLine, h1, h2, h3]
  rfl

theorem splitLines_pad (n : Nat) (hn : n ≠ 0) :
    splitLines (List.replicate n 120) = [List.replicate n 120] := by
  obtain ⟨m, rfl⟩ := Nat.exists_eq_succ_of_ne_zero hn
  unfold splitLines
  conv_lhs => rw [← List.append_nil (List.replicate (m + 1) 120)]
  rw [splitLinesAux_pad 120 (by decide) [] (m + 1) []]
  rw [List.nil_append, List.replicate_succ]
  rfl

theorem trailerSlab_pad (st : TrailerSt) (n : Nat) (hn : n ≠ 0) :
    (splitLines (List.replicate n 120)).foldlM trailerLine st = .ok st := by
  rw [splitLines_pad n hn]
  simp [List.foldlM, trailerLine_pad]

theorem file8_length : file8.length = 10300 := by
  unfold file8
  rw [List.length_append, List.length_append, List.length_replicate,
    List.length_replicate,
    show (strBytes "<indexListOffset>5</indexListOffset>").length = 36 from by decide]

theorem file8_drop_tail (p : Nat) (h136 : 136 ≤ p) :
    file8.drop p = List.replicate (10300 - p) 120 := by
  unfold file8
  rw [List.drop_append_eq_append_drop, List.drop_eq_nil_of_le, List.drop_replicate,
    List.nil_append]
  · congr 1
    rw [List.length_append, List.length_replicate,
      show (strBytes "<indexListOffset>5</indexListOffset>").length = 36 from by decide]
    omega
  · rw [List.length_append, List.length_replicate,
      show (strBytes "<indexListOffset>5</indexListOffset>").length = 36 from by decide]
    omega

theorem trailerScanGo_file8_step (fuel k : Nat) (h1 : 1 ≤ k) (h9 : k ≤ 9) :
    trailerScanGo file8 (fuel + 1) k ⟨OVal.none, [], false, 0⟩ =
      trailerScanGo file8 fuel (k + 1) ⟨OVal.none, [], false, 0⟩ := by
  have hcount : 10300 - (10300 - 1024 * k) = 1024 * k := by omega
  rw [trailerScanGo, file8_length, if_neg (by omega),
    file8_drop_tail (10300 - 1024 * k) (by omega), hcount]
  dsimp only
  rw [trailerSlab_pad _ (1024 * k) (by omega)]
  simp [exceptBind_ok]

theorem trailerScan_file8 : trailerScan file8 = .ok ⟨OVal.none, [], false, 0⟩ := by
  calc trailerScan file8
      = trailerScanGo file8 (8 + 1) 1 ⟨OVal.none, [], false, 0⟩ := rfl
    _ = trailerScanGo file8 (7 + 1) 2 ⟨OVal.none, [], false, 0⟩ :=
        trailerScanGo_file8_step 8 1 (by omega) (by omega)
    _ = trailerScanGo file8 (6 + 1) 3 ⟨OVal.none, [], false, 0⟩ :=
        trailerScanGo_file8_step 7 2 (by omega) (by omega)
    _ = trailerScanGo file8 (5 + 1) 4 ⟨OVal.none, [], false, 0⟩ :=
        trailerScanGo_file8_step 6 3 (by omega) (by omega)
    _ = trailerScanGo file8 (4 + 1) 5 ⟨OVal.none, [], false, 0⟩ :=
        trailerScanGo_file8_step 5 4 (by omega) (by omega)
    _ = trailerScanGo file8 (3 + 1) 6 ⟨OVal.none, [], false, 0⟩ :=
        trailerScanGo_file8_step 4 5 (by omega) (by omega)
    _ = trailerScanGo file8 (2 + 1) 7 ⟨OVal.none, [], false, 0⟩ :=
        trailerScanGo_file8_step 3 6 (by omega) (by omega)
    _ = trailerScanGo file8 (1 + 1) 8 ⟨OVal.none, [], false, 0⟩ :=
        trailerScanGo_file8_step 2 7 (by omega) (by omega)
    _ = trailerScanGo file8 (0 + 1) 9 ⟨OVal.none, [], false, 0⟩ :=
        trailerScanGo_file8_step 1 8 (by omega) (by omega)
    _ = trailerScanGo file8 0 10 ⟨OVal.none, [], false, 0⟩ :=
        trailerScanGo_file8_step 0 9 (by omega) (by omega)
    _ = .ok ⟨OVal.none, [], false, 0⟩ := rfl

/-- C8: the backward trailer walk (`for _ in range(1, 10)` over 1 KiB
slabs) examines at most `9 * 1024 = 9216` bytes of the file tail, not the
10 KiB announced by the source comment and the spec: on `file8`, a
10300-byte file whose `<indexListOffset>` marker starts at byte 100 —
inside the last 10240 bytes (`10300 - 10240 = 60 ≤ 100`) but before the
last 9216 (`10300 - 9216 = 1084 > 136`) — the scan completes all nine
slabs without observing the marker and reports no index found. -/
theorem C8_trailer_budget_short :
    trailerScan file8 = .ok ⟨OVal.none, [], false, 0⟩ ∧
    file8.length = 10300 ∧
    (strBytes "<indexListOffset>").isPrefixOf (file8.drop 100) = true := by
  refine ⟨trailerScan_file8, file8_length, ?_⟩
  unfold file8
  rw [List.append_assoc, drop_pad_append_ge 120 _ 100 100 (Nat.le_refl 100),
    Nat.sub_self, List.drop_zero,
    isPrefixOf_append_of_le _ _ _ (by decide)]
  decide

end PymzML

namespace PymzML

/-! ## C7 / C3: the extremes probe on 128 000-byte files -/

theorem exceptBind_err {ε α β : Type} (e : ε) (k : α → Except ε β) :
    ((Except.error e : Except ε α) >>= k) = .error e := rfl

theorem headPass_succ (f : File) (fuel x : Nat) (buffer : ByteStr) :
    headPass f (fuel + 1) x buffer =
      (match findPat SPECTRUM_OPEN_PATTERN_SIMPLE
          (buffer ++ fileRead f (x * 128000) 128000) with
       | some mstart =>
         match specIdSearch (buffer ++ fileRead f (x * 128000) 128000) with
         | none => .error .attrErr
         | some idv =>
           .ok [((match intOfDigits (digitSuffix idv) with
                  | .ok v => v
                  | .error _ => 0),
             ((x * 128000 + (fileRead f (x * 128000) 128000).length : Nat) : Int)
               - 128000 + mstart)]
       | none => headPass f fuel (x + 1) (buffer ++ fileRead f (x * 128000) 128000)) := rfl

theorem tailPass_succ (f : File) (fuel x : Nat) (buffer : ByteStr) :
    tailPass f (fuel + 1) x buffer =
      (if f.length < x * 128000 then .ok []
       else
        match scanPositions SPECTRUM_OPEN_PATTERN_SIMPLE
            (fileRead f (f.length - x * 128000) 128000 ++ buffer) 0 with
        | [] => tailPass f fuel (x + 1)
            (fileRead f (f.length - x * 128000) 128000 ++ buffer)
        | m :: ms =>
          match specIdSearch ((fileRead f (f.length - x * 128000) 128000 ++ buffer).drop
              ((m :: ms).getLastD 0)) with
          | none => .error .attrErr
          | some idv =>
            (intOfDigits (digitSuffix idv)) >>= fun last_scan =>
              .ok [(last_scan,
                ((f.length - x * 128000 +
                    (fileRead f (f.length - x * 128000) 128000).length : Nat) : Int)
                  - 128000 + (m :: ms).getLastD 0)]) := rfl

theorem specOpenSimpleLit_head_a :
    ∀ t : ByteStr, t.head? = some 97 →
      (if SPECTRUM_OPEN_PATTERN_SIMPLE.isPrefixOf t then (some () : Option Unit)
       else none) = none := by
  intro t ht
  cases t with
  | nil => simp at ht
  | cons b t' =>
    simp at ht
    subst ht
    simp [specOpenSimple_cons_a t']

theorem file7_length : file7.length = 128000 := by
  unfold file7
  rw [List.length_append, List.length_replicate,
    show (strBytes "<spectrum id=\"scan\">x</spectrum>\n").length = 33 from by decide]

theorem file7_drop : file7.drop 127967 = strBytes "<spectrum id=\"scan\">x</spectrum>\n" := by
  unfold file7
  rw [drop_pad_append_le 97 _ 127967 127967 (Nat.le_refl _), Nat.sub_self]
  rfl

theorem findPat_specOpen_file7 :
    findPat SPECTRUM_OPEN_PATTERN_SIMPLE file7 = some 127967 := by
  unfold findPat file7
  rw [scanFirstP_pad _ 97 specOpenSimpleLit_head_a _ 127967 0]
  decide

theorem specIdSearch_file7 : specIdSearch file7 = some (strBytes "scan") := by
  unfold specIdSearch file7
  rw [scanFirstP_pad specIdCheck 97 specIdCheck_head_a _ 127967 0]
  decide

theorem scanPositions_specOpen_file7 :
    scanPositions SPECTRUM_OPEN_PATTERN_SIMPLE file7 0 = [127967] := by
  unfold file7
  rw [scanPositions_pad SPECTRUM_OPEN_PATTERN_SIMPLE 97 specOpenSimple_cons_a _ 127967 0]
  decide

theorem headPass_file7 : headPass file7 100 0 [] = .ok [(0, 127967)] := by
  have h : headPass file7 100 0 [] = headPass file7 (99 + 1) 0 [] := rfl
  rw [h, headPass_succ, Nat.zero_mul, List.nil_append,
    fileRead_whole file7 128000 file7_length.le, findPat_specOpen_file7,
    specIdSearch_file7, file7_length]
  decide

theorem tailPass_hit (f : File) (fuel x : Nat) (buffer : ByteStr) (m : Nat)
    (ms : List Nat)
    (hp : scanPositions SPECTRUM_OPEN_PATTERN_SIMPLE
        (fileRead f (f.length - x * 128000) 128000 ++ buffer) 0 = m :: ms)
    (hle : ¬ f.length < x * 128000) :
    tailPass f (fuel + 1) x buffer =
      (match specIdSearch ((fileRead f (f.length - x * 128000) 128000 ++ buffer).drop
          ((m :: ms).getLastD 0)) with
       | none => .error .attrErr
       | some idv =>
         (intOfDigits (digitSuffix idv)) >>= fun last_scan =>
           .ok [(last_scan,
             ((f.length - x * 128000 +
                 (fileRead f (f.length - x * 128000) 128000).length : Nat) : Int)
               - 128000 + (m :: ms).getLastD 0)]) := by
  rw [tailPass_succ, if_neg hle, hp]

theorem tailPass_file7 : tailPass file7 99 1 [] = .error .valueErr := by
  have h : tailPass file7 99 1 [] = tailPass file7 (98 + 1) 1 [] := rfl
  have hle : ¬ file7.length < 1 * 128000 := by rw [file7_length]; omega
  have hp : scanPositions SPECTRUM_OPEN_PATTERN_SIMPLE
      (fileRead file7 (file7.length - 1 * 128000) 128000 ++ []) 0 = 127967 :: [] := by
    rw [file7_length, show (128000 : Nat) - 1 * 128000 = 0 from by norm_num,
      fileRead_whole file7 128000 file7_length.le, List.append_nil]
    exact scanPositions_specOpen_file7
  rw [h, tailPass_hit file7 98 1 [] 127967 [] hp hle]
  rw [file7_length, show (128000 : Nat) - 1 * 128000 = 0 from by norm_num,
    fileRead_whole file7 128000 file7_length.le, List.append_nil,
    show ([127967] : List Nat).getLastD 0 = 127967 from rfl, file7_drop,
    show specIdSearch (strBytes "<spectrum id=\"scan\">x</spectrum>\n") =
      some (strBytes "scan") from by decide, file7_length]
  decide

/-- C7 counterexample: on a 128 000-byte file whose single spectrum has the
digitless id `scan`, the head pass degrades the id to scan `0` as claimed,
but the tail pass — whose `int(...)` at line 662 is not wrapped in
`try/except ValueError` — raises `ValueError`, so `_read_extremes` raises
instead of returning entries. -/
theorem C7_counterexample :
    headPass file7 100 0 [] = .ok [(0, 127967)] ∧
    readExtremes file7 = .error .valueErr := by
  refine ⟨headPass_file7, ?_⟩
  unfold readExtremes
  rw [headPass_file7, exceptBind_ok, tailPass_file7]
  rfl

theorem headPass_len (f : File) :
    ∀ (fuel x : Nat) (buffer : ByteStr) (l : List (Int × Int)),
      headPass f fuel x buffer = .ok l → l.length ≤ 1 := by
  intro fuel
  induction fuel with
  | zero =>
    intro x buffer l h
    rw [headPass] at h
    simp only [Except.ok.injEq] at h
    subst h
    simp
  | succ n ih =>
    intro x buffer l h
    rw [headPass_succ] at h
    cases hf : findPat SPECTRUM_OPEN_PATTERN_SIMPLE
        (buffer ++ fileRead f (x * 128000) 128000) with
    | none =>
      rw [hf] at h
      exact ih (x + 1) _ l h
    | some m =>
      rw [hf] at h
      cases hs : specIdSearch (buffer ++ fileRead f (x * 128000) 128000) with
      | none => rw [hs] at h; simp at h
      | some idv =>
        rw [hs] at h
        simp only [Except.ok.injEq] at h
        subst h
        simp

theorem tailPass_len (f : File) :
    ∀ (fuel x : Nat) (buffer : ByteStr) (l : List (Int × Int)),
      tailPass f fuel x buffer = .ok l → l.length ≤ 1 := by
  intro fuel
  induction fuel with
  | zero =>
    intro x buffer l h
    rw [tailPass] at h
    simp only [Except.ok.injEq] at h
    subst h
    simp
  | succ n ih =>
    intro x buffer l h
    rw [tailPass_succ] at h
    by_cases hc : f.length < x * 128000
    · rw [if_pos hc] at h
      simp only [Except.ok.injEq] at h
      subst h
      simp
    · rw [if_neg hc] at h
      cases hp : scanPositions SPECTRUM_OPEN_PATTERN_SIMPLE
          (fileRead f (f.length - x * 128000) 128000 ++ buffer) 0 with
      | nil =>
        rw [hp] at h
        exact ih (x + 1) _ l h
      | cons m ms =>
        rw [hp] at h
        dsimp only at h
        cases hs : specIdSearch ((fileRead f (f.length - x * 128000) 128000 ++ buffer).drop
            ((m :: ms).getLastD 0)) with
        | none => rw [hs] at h; simp at h
        | some idv =>
          rw [hs] at h
          dsimp only at h
          cases hi : intOfDigits (digitSuffix idv) with
          | error e => rw [hi, exceptBind_err] at h; simp at h
          | ok v =>
            rw [hi, exceptBind_ok] at h
            simp only [Except.ok.injEq] at h
            subst h
            simp

/-- C7 (amended): in the extremes probe, an id whose trailing digits cannot
be parsed degrades to scan `0` in the *head* pass only (the tail pass's
`int(...)` is unguarded and raises `ValueError`; see the counterexample);
whenever `_read_extremes` returns normally, it returns zero, one, or two
entries. -/
theorem C7_degrade_and_len (f : File) :
    (∀ (fuel x : Nat) (buffer : ByteStr) (m : Nat),
      findPat SPECTRUM_OPEN_PATTERN_SIMPLE
          (buffer ++ fileRead f (x * 128000) 128000) = some m →
      ∀ idv : ByteStr,
        specIdSearch (buffer ++ fileRead f (x * 128000) 128000) = some idv →
        digitSuffix idv = [] →
        headPass f (fuel + 1) x buffer =
          .ok [(0, ((x * 128000 + (fileRead f (x * 128000) 128000).length : Nat) : Int)
            - 128000 + m)]) ∧
    (∀ l : List (Int × Int), readExtremes f = .ok l → l.length ≤ 2) := by
  constructor
  · intro fuel x buffer m hf idv hs hd
    rw [headPass_succ, hf]
    dsimp only
    rw [hs]
    dsimp only
    rw [hd]
    rfl
  · intro l h
    unfold readExtremes at h
    cases hh : headPass f 100 0 [] with
    | error e => rw [hh, exceptBind_err] at h; simp at h
    | ok lh =>
      rw [hh, exceptBind_ok] at h
      cases ht : tailPass f 99 1 [] with
      | error e => rw [ht, exceptBind_err] at h; simp at h
      | ok lt =>
        rw [ht, exceptBind_ok] at h
        simp only [Except.ok.injEq] at h
        subst h
        have h1 := headPass_len f 100 0 [] lh hh
        have h2 := tailPass_len f 99 1 [] lt ht
        rw [List.length_append]
        omega

/-- Witness for C7 at concrete inputs: the head-pass degradation on
`file7` and the entry bound on `file9`. -/
theorem C7_degrade_and_len_witness :
    headPass file7 (99 + 1) 0 [] =
      .ok [(0, ((0 * 128000 + (fileRead file7 (0 * 128000) 128000).length : Nat) : Int)
        - 128000 + 127967)] ∧
    ([] : List (Int × Int)).length ≤ 2 :=
  ⟨(C7_degrade_and_len file7).1 99 0 [] 127967
      (by rw [Nat.zero_mul, List.nil_append,
            fileRead_whole file7 128000 file7_length.le]
          exact findPat_specOpen_file7)
      (strBytes "scan")
      (by rw [Nat.zero_mul, List.nil_append,
            fileRead_whole file7 128000 file7_length.le]
          exact specIdSearch_file7)
      (by decide),
    (C7_degrade_and_len file9).2 [] (by decide)⟩

end PymzML

namespace PymzML

/-! ## C3: duplicate extremes; bisect-left insertion preserves order -/

theorem file3c_length : file3c.length = 128000 := by
  unfold file3c
  rw [List.length_append, List.length_replicate,
    show (strBytes "<spectrum id=\"1\">x</spectrum>\n").length = 30 from by decide]

theorem file3c_drop :
    file3c.drop 127970 = strBytes "<spectrum id=\"1\">x</spectrum>\n" := by
  unfold file3c
  rw [drop_pad_append_le 97 _ 127970 127970 (Nat.le_refl _), Nat.sub_self]
  rfl

theorem findPat_specOpen_file3c :
    findPat SPECTRUM_OPEN_PATTERN_SIMPLE file3c = some 127970 := by
  unfold findPat file3c
  rw [scanFirstP_pad _ 97 specOpenSimpleLit_head_a _ 127970 0]
  decide

theorem specIdSearch_file3c : specIdSearch file3c = some (strBytes "1") := by
  unfold specIdSearch file3c
  rw [scanFirstP_pad specIdCheck 97 specIdCheck_head_a _ 127970 0]
  decide

theorem scanPositions_specOpen_file3c :
    scanPositions SPECTRUM_OPEN_PATTERN_SIMPLE file3c 0 = [127970] := by
  unfold file3c
  rw [scanPositions_pad SPECTRUM_OPEN_PATTERN_SIMPLE 97 specOpenSimple_cons_a _ 127970 0]
  decide

theorem headPass_file3c : headPass file3c 100 0 [] = .ok [(1, 127970)] := by
  have h : headPass file3c 100 0 [] = headPass file3c (99 + 1) 0 [] := rfl
  rw [h, headPass_succ, Nat.zero_mul, List.nil_append,
    fileRead_whole file3c 128000 file3c_length.le, findPat_specOpen_file3c,
    specIdSearch_file3c, file3c_length]
  decide

theorem tailPass_file3c : tailPass file3c 99 1 [] = .ok [(1, 127970)] := by
  have h : tailPass file3c 99 1 [] = tailPass file3c (98 + 1) 1 [] := rfl
  have hle : ¬ file3c.length < 1 * 128000 := by rw [file3c_length]; omega
  have hp : scanPositions SPECTRUM_OPEN_PATTERN_SIMPLE
      (fileRead file3c (file3c.length - 1 * 128000) 128000 ++ []) 0 = 127970 :: [] := by
    rw [file3c_length, show (128000 : Nat) - 1 * 128000 = 0 from by norm_num,
      fileRead_whole file3c 128000 file3c_length.le, List.append_nil]
    exact scanPositions_specOpen_file3c
  rw [h, tailPass_hit file3c 98 1 [] 127970 [] hp hle]
  rw [file3c_length, show (128000 : Nat) - 1 * 128000 = 0 from by norm_num,
    fileRead_whole file3c 128000 file3c_length.le, List.append_nil,
    show ([127970] : List Nat).getLastD 0 = 127970 from rfl, file3c_drop,
    show specIdSearch (strBytes "<spectrum id=\"1\">x</spectrum>\n") =
      some (strBytes "1") from by decide, file3c_length]
  decide

/-- C3 counterexample: on a 128 000-byte file whose single spectrum
(scan 1) is visible to both the head and the tail probe, `_read_extremes`
returns the *same* entry twice, so the freshly constructed seek list
`[(1, 127970), (1, 127970)]` is neither duplicate-free nor strictly
ascending on `scan_id`. -/
theorem C3_counterexample :
    readExtremes file3c = .ok [(1, 127970), (1, 127970)] ∧
    ¬ seekListOrdered [((1 : Int), (127970 : Int)), (1, 127970)] := by
  constructor
  · unfold readExtremes
    rw [headPass_file3c, exceptBind_ok, tailPass_file3c, exceptBind_ok]
    rfl
  · intro hord
    unfold seekListOrdered at hord
    rw [List.chain'_cons] at hord
    exact absurd hord.1 (lt_irrefl _)

theorem tupLt_trans (a b c : Int × Int) (h1 : tupLt a b = true)
    (h2 : tupLt b c = true) : tupLt a c = true := by
  unfold tupLt at *
  simp only [Bool.or_eq_true, decide_eq_true_eq, Bool.and_eq_true] at *
  rcases h1 with h1 | ⟨h1e, h1l⟩ <;> rcases h2 with h2 | ⟨h2e, h2l⟩
  · exact Or.inl (lt_trans h1 h2)
  · exact Or.inl (h2e ▸ h1)
  · exact Or.inl (h1e ▸ h2)
  · exact Or.inr ⟨h1e.trans h2e, lt_trans h1l h2l⟩

theorem tupLt_true_ne (a e : Int × Int) (h : tupLt a e = true) (hne : a.1 ≠ e.1) :
    a.1 < e.1 := by
  unfold tupLt at h
  simp only [Bool.or_eq_true, decide_eq_true_eq, Bool.and_eq_true] at h
  rcases h with h | ⟨he, _⟩
  · exact h
  · exact absurd he hne

theorem tupLt_false_ne (a e : Int × Int) (h : tupLt a e = false) (hne : a.1 ≠ e.1) :
    e.1 < a.1 := by
  have h' : ¬ (tupLt a e = true) := by rw [h]; exact Bool.false_ne_true
  unfold tupLt at h'
  simp only [Bool.or_eq_true, decide_eq_true_eq, Bool.and_eq_true] at h'
  push_neg at h'
  omega

theorem chain'_lt_pairwise :
    ∀ l : List (Int × Int), l.Chain' (fun a b => a.1 < b.1) →
      l.Pairwise (fun a b => a.1 < b.1) := by
  intro l
  induction l with
  | nil => intro _; exact List.Pairwise.nil
  | cons a t ih =>
    intro h
    cases t with
    | nil => simp
    | cons b t' =>
      rw [List.chain'_cons] at h
      have hp := ih h.2
      rw [List.pairwise_cons] at hp
      rw [List.pairwise_cons]
      constructor
      · intro x hx
        rcases List.mem_cons.mp hx with rfl | hx'
        · exact h.1
        · exact lt_trans h.1 (hp.1 x hx')
      · exact ih h.2

theorem pairwise_getD_lt (l : List (Int × Int))
    (hp : l.Pairwise (fun a b => a.1 < b.1)) :
    ∀ i j, i < j → j < l.length →
      tupLt (l.getD i (0, 0)) (l.getD j (0, 0)) = true := by
  intro i j hij hj
  have hi : i < l.length := lt_trans hij hj
  rw [List.getD_eq_getElem l (0, 0) hi, List.getD_eq_getElem l (0, 0) hj]
  have hlt := List.pairwise_iff_getElem.mp hp i j hi hj hij
  unfold tupLt
  simp [hlt]

theorem bisectLoop_spec (l : List (Int × Int)) (x : Int × Int)
    (hsorted : ∀ i j : Nat, i < j → j < l.length →
      tupLt (l.getD i (0, 0)) (l.getD j (0, 0)) = true) :
    ∀ (fuel lo hi : Nat), hi ≤ l.length → lo ≤ hi → hi - lo ≤ fuel →
      (∀ i, i < lo → tupLt (l.getD i (0, 0)) x = true) →
      (∀ i, hi ≤ i → i < l.length → tupLt (l.getD i (0, 0)) x = false) →
      lo ≤ bisectLoop l x fuel lo hi ∧ bisectLoop l x fuel lo hi ≤ hi ∧
      (∀ i, i < bisectLoop l x fuel lo hi → tupLt (l.getD i (0, 0)) x = true) ∧
      (∀ i, bisectLoop l x fuel lo hi ≤ i → i < l.length →
        tupLt (l.getD i (0, 0)) x = false) := by
  intro fuel
  induction fuel with
  | zero =>
    intro lo hi hhi hlo hfuel hbelow habove
    have heq : lo = hi := by omega
    subst heq
    rw [bisectLoop]
    exact ⟨Nat.le_refl lo, Nat.le_refl lo, hbelow, habove⟩
  | succ n ih =>
    intro lo hi hhi hlo hfuel hbelow habove
    rw [bisectLoop]
    by_cases hlh : lo < hi
    · rw [if_pos hlh]
      dsimp only
      by_cases hmid : tupLt (l.getD ((lo + hi) / 2) (0, 0)) x = true
      · rw [if_pos hmid]
        have h1 : ∀ i, i < (lo + hi) / 2 + 1 → tupLt (l.getD i (0, 0)) x = true := by
          intro i hi'
          by_cases hil : i < lo
          · exact hbelow i hil
          · by_cases hieq : i = (lo + hi) / 2
            · subst hieq; exact hmid
            · have hlt : i < (lo + hi) / 2 := by omega
              have hmlen : (lo + hi) / 2 < l.length := by omega
              exact tupLt_trans _ _ _ (hsorted i _ hlt hmlen) hmid
        have hrec := ih ((lo + hi) / 2 + 1) hi hhi (by omega) (by omega) h1 habove
        refine ⟨?_, hrec.2.1, hrec.2.2⟩
        have := hrec.1
        omega
      · rw [if_neg hmid]
        have hmid' : tupLt (l.getD ((lo + hi) / 2) (0, 0)) x = false := by
          cases hq : tupLt (l.getD ((lo + hi) / 2) (0, 0)) x
          · rfl
          · exact absurd hq hmid
        have h2 : ∀ i, (lo + hi) / 2 ≤ i → i < l.length →
            tupLt (l.getD i (0, 0)) x = false := by
          intro i hge hil
          by_cases hhi' : hi ≤ i
          · exact habove i hhi' hil
          · by_cases hieq : i = (lo + hi) / 2
            · subst hieq; exact hmid'
            · have hlt : (lo + hi) / 2 < i := by omega
              cases hq : tupLt (l.getD i (0, 0)) x
              · rfl
              · exfalso
                have htr := tupLt_trans _ _ _ (hsorted _ i hlt hil) hq
                rw [htr] at hmid'
                exact absurd hmid' (by simp)
        have hrec := ih lo ((lo + hi) / 2) (by omega) (by omega) (by omega) hbelow h2
        refine ⟨hrec.1, ?_, hrec.2.2⟩
        have := hrec.2.1
        omega
    · rw [if_neg hlh]
      have heq : lo = hi := by omega
      refine ⟨Nat.le_refl lo, by omega, hbelow, ?_⟩
      intro i hge hil
      exact habove i (by omega) hil

theorem bisect_left_spec (l : List (Int × Int)) (x : Int × Int)
    (hsorted : ∀ i j : Nat, i < j → j < l.length →
      tupLt (l.getD i (0, 0)) (l.getD j (0, 0)) = true) :
    bisect_left l x ≤ l.length ∧
    (∀ i, i < bisect_left l x → tupLt (l.getD i (0, 0)) x = true) ∧
    (∀ i, bisect_left l x ≤ i → i < l.length →
      tupLt (l.getD i (0, 0)) x = false) := by
  unfold bisect_left
  have h := bisectLoop_spec l x hsorted (l.length + 1) 0 l.length (Nat.le_refl _)
    (Nat.zero_le _) (by omega)
    (fun i hi => absurd hi (Nat.not_lt_zero i))
    (fun i h1 h2 => absurd h2 (by omega))
  exact ⟨h.2.1, h.2.2⟩

theorem insertIdx_eq_take_drop (x : Int × Int) :
    ∀ (k : Nat) (l : List (Int × Int)), k ≤ l.length →
      l.insertIdx k x = l.take k ++ x :: l.drop k := by
  intro k
  induction k with
  | zero => intro l h; simp [List.insertIdx]
  | succ n ih =>
    intro l h
    cases l with
    | nil => simp at h
    | cons a t =>
      rw [List.insertIdx_succ_cons, ih t (by simpa using h)]
      simp [List.take_succ_cons, List.drop_succ_cons]

/-- C3 (amended): freshly constructed seek lists can carry duplicates (see
the counterexample), but the opportunistic insertion `_binary_search`
performs — `seek_list.insert(bisect.bisect_left(seek_list, entry), entry)`
guarded by `scan not in offset_dict` — preserves the invariant: inserting
an entry whose scan id is fresh at the `bisect_left` position keeps the
list strictly ascending and duplicate-free on `scan_id`. -/
theorem C3_bisect_insert_sorted (l : List (Int × Int)) (e : Int × Int)
    (hord : seekListOrdered l) (hfresh : ∀ p ∈ l, p.1 ≠ e.1) :
    seekListOrdered (l.insertIdx (bisect_left l e) e) := by
  have hp := chain'_lt_pairwise l hord
  have hsorted := pairwise_getD_lt l hp
  obtain ⟨hk, hbelow, habove⟩ := bisect_left_spec l e hsorted
  rw [insertIdx_eq_take_drop e (bisect_left l e) l hk]
  have htake : ∀ a ∈ l.take (bisect_left l e), a.1 < e.1 := by
    intro a ha
    obtain ⟨i, hi, hae⟩ := List.mem_iff_getElem.mp ha
    have hik : i < bisect_left l e := by
      have := hi
      rw [List.length_take] at this
      omega
    have hil : i < l.length := by
      have := hi
      rw [List.length_take] at this
      omega
    have htrue := hbelow i hik
    rw [List.getD_eq_getElem l (0, 0) hil] at htrue
    have hmem : l[i] ∈ l := List.getElem_mem hil
    have hane : (l[i]).1 ≠ e.1 := hfresh _ hmem
    have : a = l[i] := by
      rw [← hae]
      exact List.getElem_take l
    rw [this]
    exact tupLt_true_ne _ _ htrue hane
  have hdrop : ∀ b ∈ l.drop (bisect_left l e), e.1 < b.1 := by
    intro b hb
    obtain ⟨j, hj, hbe⟩ := List.mem_iff_getElem.mp hb
    have hkj : bisect_left l e + j < l.length := by
      have := hj
      rw [List.length_drop] at this
      omega
    have hfalse := habove (bisect_left l e + j) (by omega) hkj
    rw [List.getD_eq_getElem l (0, 0) hkj] at hfalse
    have hmem : l[bisect_left l e + j] ∈ l := List.getElem_mem hkj
    have hbne : (l[bisect_left l e + j]).1 ≠ e.1 := hfresh _ hmem
    have : b = l[bisect_left l e + j] := by
      rw [← hbe]
      exact List.getElem_drop l
    rw [this]
    exact tupLt_false_ne _ _ hfalse hbne
  unfold seekListOrdered
  apply List.Pairwise.chain'
  rw [List.pairwise_append]
  refine ⟨hp.sublist (List.take_sublist _ l), ?_, ?_⟩
  · rw [List.pairwise_cons]
    exact ⟨hdrop, hp.sublist (List.drop_sublist _ l)⟩
  · intro a ha b hb
    rcases List.mem_cons.mp hb with rfl | hb'
    · exact htake a ha
    · exact lt_trans (htake a ha) (hdrop b hb')

/-- Witness for C3 (amended) at a concrete input. -/
theorem C3_bisect_insert_sorted_witness :
    seekListOrdered (([((1 : Int), (0 : Int)), (9, 100)]).insertIdx
      (bisect_left [((1 : Int), (0 : Int)), (9, 100)] (5, 50)) (5, 50)) :=
  C3_bisect_insert_sorted [(1, 0), (9, 100)] (5, 50)
    (by unfold seekListOrdered
        rw [List.chain'_cons]
        exact ⟨by norm_num, List.chain'_singleton _⟩)
    (by decide)

end PymzML

namespace PymzML

/-! ## C6 (amended): one spectrum, small file, seek list of length one -/

/-- C6 (amended): for a file shorter than one probe chunk (128 000 bytes)
whose initial buffer yields a `<spectrum ` match with an id capture, the
constructor's `_read_extremes` produces a seek list of exactly one entry —
but `get` of that spectrum's id need not succeed: the stored offset is
`tell() - 128000 + match.start()`, negative for such files, and the
duplicated extremes defeat `_binary_search` (see the counterexample). -/
theorem C6_one_spectrum_seek_list (f : File) (hsmall : f.length < 128000)
    (m : Nat) (idv : ByteStr)
    (hf : findPat SPECTRUM_OPEN_PATTERN_SIMPLE (fileRead f 0 128000) = some m)
    (hs : specIdSearch (fileRead f 0 128000) = some idv) :
    ∃ scan : Int, readExtremes f =
      .ok [(scan, ((fileRead f 0 128000).length : Int) - 128000 + m)] := by
  refine ⟨(match intOfDigits (digitSuffix idv) with | .ok v => v | .error _ => 0), ?_⟩
  have hh : headPass f 100 0 [] =
      .ok [((match intOfDigits (digitSuffix idv) with | .ok v => v | .error _ => 0),
        ((fileRead f 0 128000).length : Int) - 128000 + m)] := by
    have h0 : headPass f 100 0 [] = headPass f (99 + 1) 0 [] := rfl
    rw [h0, headPass_succ, Nat.zero_mul, List.nil_append, hf]
    dsimp only
    rw [hs]
    dsimp only
    rw [Nat.zero_add]
  have ht : tailPass f 99 1 [] = .ok [] := by
    have h0 : tailPass f 99 1 [] = tailPass f (98 + 1) 1 [] := rfl
    rw [h0, tailPass_succ, if_pos (by rw [Nat.one_mul]; exact hsmall)]
  unfold readExtremes
  rw [hh, exceptBind_ok, ht, exceptBind_ok]
  rfl

/-- Witness for C6 (amended) on `file6` (36 bytes, one spectrum at 2). -/
theorem C6_one_spectrum_seek_list_witness :
    ∃ scan : Int, readExtremes file6 =
      .ok [(scan, ((fileRead file6 0 128000).length : Int) - 128000 + 2)] :=
  C6_one_spectrum_seek_list file6 (by decide) 2 (strBytes "1") (by decide) (by decide)

/-! ## C2 (amended): what the match loop actually stores -/

/-- C2 (amended): the spec's record invariant fails for the trailer reader
(`TIC → None` and bare ints; see the counterexample), and no code path
validates that a stored `start` points at a `<` byte.  What `_binary_search`'s
match loop guarantees is: the offset dict after the loop is the入 dict plus a
batch of `dictSet` insertions, one per consumed match `(ms, idv)` of the
scanned buffer, keyed by the scan id parsed from the id's trailing digits and
holding the one-tuple value `(byte_offset + match.start(),)`. -/
theorem C2_match_loop_inserts (target byteOff : Int) (dir : Bool) :
    ∀ (mlist : List (Nat × Option ByteStr)) (js : JumpSt) (st : MzState)
      (found : Bool),
      ∃ ins : List (Int × Nat),
        (∀ p ∈ ins, ∃ idv, (p.2, some idv) ∈ mlist ∧
          intOfDigits (digitSuffix idv) = .ok p.1) ∧
        (binMatchLoop target byteOff dir mlist js st found).2.offset_dict =
          ins.foldl
            (fun d p => dictSet d (OKey.int p.1) (OVal.one (byteOff + (p.2 : Int))))
            st.offset_dict := by
  intro mlist
  induction mlist with
  | nil =>
    intro js st found
    exact ⟨[], by simp, rfl⟩
  | cons hd rest ih =>
    intro js st found
    obtain ⟨ms, idv?⟩ := hd
    cases idv? with
    | none => exact ⟨[], by simp, rfl⟩
    | some idv =>
      rw [binMatchLoop]
      cases hi : intOfDigits (digitSuffix idv) with
      | error e => exact ⟨[], by simp, rfl⟩
      | ok scan =>
        dsimp only
        by_cases hmem : dictMem st.offset_dict (OKey.int scan) = true
        · rw [if_pos hmem]
          obtain ⟨ins, hprop, heq⟩ := ih _ st found
          exact ⟨ins, fun p hp => by
            obtain ⟨w, hw, hww⟩ := hprop p hp
            exact ⟨w, List.mem_cons_of_mem _ hw, hww⟩, heq⟩
        · rw [if_neg hmem]
          by_cases htg : scan = target
          · rw [if_pos htg]
            refine ⟨[(scan, ms)], ?_, ?_⟩
            · intro p hp
              rcases List.mem_singleton.mp hp with rfl
              exact ⟨idv, List.mem_cons_self _ _, hi⟩
            · rfl
          · rw [if_neg htg]
            obtain ⟨ins, hprop, heq⟩ := ih _
              ⟨dictSet st.offset_dict (OKey.int scan) (OVal.one (byteOff + (ms : Int))),
               st.seek_list.insertIdx
                 (bisect_left st.seek_list (scan, byteOff + (ms : Int)))
                 (scan, byteOff + (ms : Int))⟩ true
            refine ⟨(scan, ms) :: ins, ?_, ?_⟩
            · intro p hp
              rcases List.mem_cons.mp hp with rfl | hp'
              · exact ⟨idv, List.mem_cons_self _ _, hi⟩
              · obtain ⟨w, hw, hww⟩ := hprop p hp'
                exact ⟨w, List.mem_cons_of_mem _ hw, hww⟩
            · rw [List.foldl_cons]
              exact heq

end PymzML
